import Mathlib

/-!
Shallow embedding of `streamlit_app.py` (WSAU order-line analysis).

The input table is a list of order-line rows with the base columns set up by
`load_data`.  Each analyser is translated from the source function of the same
name.  Because the Python code mutates one shared dataframe (adding the derived
columns `Revenue` and `Profit` in place), the embedding threads an explicit
`DfState` that records which derived columns are currently materialised and
with which values; `main`'s call order is reproduced by `mainPipeline`.

Numeric cells (QTY, Unit Price, Unit Cost and everything derived from them)
are modelled as rationals.  Timestamps are modelled as a pair of a
year-month index (the value of pandas `to_period("M")`) and a day position
inside the month, ordered lexicographically.
-/

attribute [local semireducible] Rat.add Rat.mul Rat.sub Rat.inv

namespace WSAU

/-- Lexicographic strict order on character lists (code-point order, the
order pandas sorts string keys by). -/
def charListLt : List Char → List Char → Bool
  | [], [] => false
  | [], _ :: _ => true
  | _ :: _, [] => false
  | a :: as, b :: bs => if a < b then true else if b < a then false else charListLt as bs

/-- Strict lexicographic order on strings. -/
def strLtB (a b : String) : Bool := charListLt a.data b.data

/-- Lexicographic `<=` on strings (the total order's reflexive closure). -/
def strLeB (a b : String) : Bool := !(charListLt b.data a.data)

/-- Timestamp produced by `load_data`'s `to_datetime`: `ym` is the year-month
period index (`dt.to_period("M")`), `day` the position within that month.
Timestamps compare lexicographically on `(ym, day)`. -/
structure Date where
  ym : Int
  day : Int
deriving DecidableEq, Repr, Inhabited

/-- Timestamp order `a <= b`. -/
def Date.le (a b : Date) : Prop := a.ym < b.ym ∨ (a.ym = b.ym ∧ a.day ≤ b.day)

/-- Strict timestamp order `a < b` (the `>` used at line 38 of the source,
flipped). -/
def Date.lt (a b : Date) : Prop := a.ym < b.ym ∨ (a.ym = b.ym ∧ a.day < b.day)

instance : DecidableRel Date.le := fun a b => by unfold Date.le; infer_instance

instance : DecidableRel Date.lt := fun a b => by unfold Date.lt; infer_instance

/-- One order line: the base columns of the uploaded table after `load_data`.
`Date Completed` is parsed by `load_data` but never read by any analyser, so it
is omitted from the row model. -/
structure Row where
  orderId : String
  email : String
  datePlaced : Date
  sku : String
  qty : ℚ
  unitPrice : ℚ
  unitCost : ℚ
deriving DecidableEq, Repr, Inhabited

/-- The shared dataframe: base rows plus the derived `Revenue` and `Profit`
columns, each `none` until some analyser materialises it (positionally aligned
with `rows` when present).  The `Is_First_Item` flag columns are recomputed by
assignment before every use, so they are not part of the state. -/
structure DfState where
  rows : List Row
  revenue : Option (List ℚ)
  profit : Option (List ℚ)
deriving DecidableEq, Repr

/-- Output contract of `load_data` (lines 8-12): the base columns only, no
derived column materialised yet. -/
def load_data (rows : List Row) : DfState := ⟨rows, none, none⟩

/-- The flat $15 shipping fee added once per order. -/
def flatShippingFee : ℚ := 15

/-- First occurrences, in order, of the elements of a list that are not in
`seen` (the accumulator form of pandas `Series.unique` restricted to unseen
keys). -/
def firstUniqA {α : Type} [DecidableEq α] (seen : List α) : List α → List α
  | [] => []
  | k :: ks => if k ∈ seen then firstUniqA seen ks else k :: firstUniqA (k :: seen) ks

/-- The distinct elements of a list in order of first occurrence. -/
def firstUniq {α : Type} [DecidableEq α] (l : List α) : List α := firstUniqA [] l

/-- Flag list marking, per position, whether the element is the first
occurrence of its value not already in `seen` (accumulator form of
`~Series.duplicated(keep="first")`). -/
def firstFlagsA {α : Type} [DecidableEq α] (seen : List α) : List α → List Bool
  | [] => []
  | k :: ks => if k ∈ seen then false :: firstFlagsA seen ks else true :: firstFlagsA (k :: seen) ks

/-- `~df[col].duplicated(keep="first")`: true exactly at the first occurrence
of each value. -/
def firstFlags {α : Type} [DecidableEq α] (l : List α) : List Bool := firstFlagsA [] l

/-- Line 16 / line 63: per-line `Revenue = QTY * Unit Price`. -/
def lineRevenue (r : Row) : ℚ := r.qty * r.unitPrice

/-- Line 64 / line 90: per-line `Profit = (Unit Price - Unit Cost) * QTY`. -/
def lineProfit (r : Row) : ℚ := (r.unitPrice - r.unitCost) * r.qty

/-- The lines of one order: the group of `df.groupby("Order ID")` for key
`oid`, in original row order. -/
def linesOf (rows : List Row) (oid : String) : List Row :=
  rows.filter (fun r => r.orderId == oid)

/-- One row of the Order table built by `analyse_data` (lines 19-40). -/
structure OrderRow where
  orderId : String
  email : String
  datePlaced : Date
  revenue : ℚ
  unitCost : ℚ
  profit : ℚ
  customerType : String
deriving DecidableEq, Repr, Inhabited

/-- Lines 19-28: aggregate one `Order ID` group — first `Email`, first
`Date placed`, summed line `Revenue` plus the shipping fee (line 27), total
cost `(Unit Cost * QTY).sum`, and `Profit = Revenue - Unit Cost` (line 28).
The `Customer Type` column does not exist yet at this point ("" placeholder,
overwritten at lines 37-40). -/
def mkOrderRow (rows : List Row) (oid : String) : OrderRow :=
  let g := linesOf rows oid
  { orderId := oid
    email := (g.headD default).email
    datePlaced := (g.headD default).datePlaced
    revenue := (g.map lineRevenue).sum + flatShippingFee
    unitCost := (g.map (fun r => r.unitCost * r.qty)).sum
    profit := ((g.map lineRevenue).sum + flatShippingFee) - (g.map (fun r => r.unitCost * r.qty)).sum
    customerType := "" }

/-- The group keys of `df.groupby("Order ID")`: the distinct order ids, in the
sorted key order pandas groupby produces. -/
def orderKeys (rows : List Row) : List String :=
  List.insertionSort (fun a b => strLeB a b = true) (firstUniq (rows.map (fun r => r.orderId)))

/-- Sort relation of line 31 (`sort_values("Date placed")`). -/
def dateLeRel (a b : OrderRow) : Prop := Date.le a.datePlaced b.datePlaced

instance : DecidableRel dateLeRel := fun a b => by unfold dateLeRel; infer_instance

/-- Pointwise minimum of two timestamps. -/
def dateMin (a b : Date) : Date := if Date.le a b then a else b

/-- `Series.min()` over a list of timestamps (`none` on an empty series). -/
def minDateOf : List Date → Option Date
  | [] => none
  | d :: ds => some (ds.foldl dateMin d)

/-- Line 34: `order_data.groupby("Email")["Date placed"].min()` evaluated at
one email.  The source only indexes this series at emails that occur, where
the minimum exists; the `getD` default is never reached there. -/
def first_purchase_date (orders : List OrderRow) (e : String) : Date :=
  (minDateOf ((orders.filter (fun o => o.email == e)).map (fun o => o.datePlaced))).getD ⟨0, 0⟩

/-- Line 38: `"Repeat" if row["Date placed"] > first_purchase_dates[email]
else "First-time"`. -/
def customer_type (minD d : Date) : String :=
  if Date.lt minD d then "Repeat" else "First-time"

/-- Lines 19-28: the per-order frame before sorting, one row per group key. -/
def order_base (rows : List Row) : List OrderRow :=
  (orderKeys rows).map (mkOrderRow rows)

/-- Line 31: the per-order frame sorted by `Date placed`. -/
def order_sorted (rows : List Row) : List OrderRow :=
  List.insertionSort dateLeRel (order_base rows)

/-- Lines 37-40: fill the `Customer Type` column of one row from the
per-email minimum of `orders`. -/
def applyCustomerType (orders : List OrderRow) (o : OrderRow) : OrderRow :=
  { o with customerType := customer_type (first_purchase_date orders o.email) o.datePlaced }

/-- Lines 19-40: the Order table — aggregate per order id, add the fee,
compute profit, sort by `Date placed`, then label each order from the
per-email minimum order date. -/
def order_data (rows : List Row) : List OrderRow :=
  (order_sorted rows).map (applyCustomerType (order_sorted rows))

/-- A pivoted month-by-customer-type matrix (`unstack` result): row index
`months` (the `Month-Year` keys) and one `(header, column)` pair per column,
columns positionally aligned with `months`. -/
structure PivotMatrix where
  months : List Int
  cols : List (String × List ℚ)
deriving DecidableEq, Repr

/-- Line 43: the `Month-Year` column (`dt.to_period("M")`). -/
def monthYear (o : OrderRow) : Int := o.datePlaced.ym

/-- The month index of the pivot (groupby sorts its keys ascending). -/
def cohortMonths (od : List OrderRow) : List Int :=
  List.insertionSort (fun a b => a ≤ b) (firstUniq (od.map monthYear))

/-- The customer-type column keys of the pivot, in pandas' sorted key order. -/
def cohortTypes (od : List OrderRow) : List String :=
  List.insertionSort (fun a b => strLeB a b = true) (firstUniq (od.map (fun o => o.customerType)))

/-- The orders of one `(Month-Year, Customer Type)` group. -/
def cohortCell (od : List OrderRow) (m : Int) (t : String) : List OrderRow :=
  od.filter (fun o => monthYear o == m && o.customerType == t)

/-- Line 46: `groupby(["Month-Year","Customer Type"]).size().unstack(fill_value=0)`. -/
def count_data_raw (od : List OrderRow) : PivotMatrix :=
  { months := cohortMonths od
    cols := (cohortTypes od).map (fun t =>
      (t, (cohortMonths od).map (fun m => ((cohortCell od m t).length : ℚ)))) }

/-- Line 50: `groupby(["Month-Year","Customer Type"])["Revenue"].sum().unstack(fill_value=0)`. -/
def revenue_data_raw (od : List OrderRow) : PivotMatrix :=
  { months := cohortMonths od
    cols := (cohortTypes od).map (fun t =>
      (t, (cohortMonths od).map (fun m => ((cohortCell od m t).map (fun o => o.revenue)).sum))) }

/-- Lines 53-57: append a zero column for each of "First-time" and "Repeat"
that the pivot does not already contain. -/
def ensure_cols (M : PivotMatrix) : PivotMatrix :=
  { M with cols := M.cols ++
      ((["First-time", "Repeat"].filter (fun c => !((M.cols.map Prod.fst).contains c))).map
        (fun c => (c, M.months.map (fun _ => (0 : ℚ))))) }

/-- Return value of `analyse_data` (line 59) together with the state of the
shared dataframe after the call: line 16 materialised the `Revenue` column. -/
structure AnalyseOut where
  countData : PivotMatrix
  revenueData : PivotMatrix
  orderData : List OrderRow
  state : DfState
deriving DecidableEq, Repr

/-- Lines 14-59: `analyse_data`.  The only mutation of the shared dataframe is
line 16 (`df["Revenue"] = df["QTY"] * df["Unit Price"]`); `order_data` is a
fresh frame. -/
def analyse_data (s : DfState) : AnalyseOut :=
  let od := order_data s.rows
  { countData := ensure_cols (count_data_raw od)
    revenueData := ensure_cols (revenue_data_raw od)
    orderData := od
    state := { s with revenue := some (s.rows.map lineRevenue) } }

/-- Line 67 / line 93: `Is_First_Item = ~df["Order ID"].duplicated(keep="first")`. -/
def isFirstItem (rows : List Row) : List Bool :=
  firstFlags (rows.map (fun r => r.orderId))

/-- Lines 68-69 / lines 94-95: add the flat fee to the positions flagged as
first line of their order (`df.loc[df["Is_First_Item"], col] += 15`). -/
def addFeeWhere (flags : List Bool) (xs : List ℚ) : List ℚ :=
  (xs.zip flags).map (fun p => if p.2 then p.1 + flatShippingFee else p.1)

/-- One row of the product table of `analyse_product_sales` (lines 72-81). -/
structure ProductRow where
  sku : String
  qty : ℚ
  revenue : ℚ
  profit : ℚ
  unitPriceMean : ℚ
  unitCostMean : ℚ
  profitMargin : ℚ
deriving DecidableEq, Repr, Inhabited

/-- The group keys of `df.groupby("SKU")` in pandas' sorted key order. -/
def skuKeys (rows : List Row) : List String :=
  List.insertionSort (fun a b => strLeB a b = true) (firstUniq (rows.map (fun r => r.sku)))

/-- Lines 72-81: aggregate one SKU group of the line table whose `Revenue` and
`Profit` columns hold `rev` and `prof` — sum QTY/Revenue/Profit, average
Unit Price and Unit Cost, then `Profit Margin = Profit / Revenue`.  Division
is rational division (the `0/0 = 0` convention stands in for the NaN pandas
produces for a zero-revenue SKU; no claim depends on the margin). -/
def mkProductRow (rows : List Row) (rev prof : List ℚ) (k : String) : ProductRow :=
  let g := rows.filter (fun r => r.sku == k)
  let grev := ((rows.zip rev).filter (fun p => p.1.sku == k)).map (fun p => p.2)
  let gprof := ((rows.zip prof).filter (fun p => p.1.sku == k)).map (fun p => p.2)
  { sku := k
    qty := (g.map (fun r => r.qty)).sum
    revenue := grev.sum
    profit := gprof.sum
    unitPriceMean := (g.map (fun r => r.unitPrice)).sum / (g.length : ℚ)
    unitCostMean := (g.map (fun r => r.unitCost)).sum / (g.length : ℚ)
    profitMargin := gprof.sum / grev.sum }

/-- Sort relation of line 84 (`sort_values("Revenue", ascending=False)`). -/
def revDescRel (a b : ProductRow) : Prop := b.revenue ≤ a.revenue

instance : DecidableRel revDescRel := fun a b => by unfold revDescRel; infer_instance

/-- Lines 61-86: `analyse_product_sales`.  It overwrites the shared frame's
`Revenue` and `Profit` columns with fresh per-line values (lines 63-64), adds
the flat fee to the first line of each order in both columns (lines 66-69),
and returns the per-SKU aggregation sorted by revenue descending.  The state
mutation persists into the shared dataframe. -/
def analyse_product_sales (s : DfState) : List ProductRow × DfState :=
  let rows := s.rows
  let flags := isFirstItem rows
  let rev := addFeeWhere flags (rows.map lineRevenue)
  let prof := addFeeWhere flags (rows.map lineProfit)
  (List.insertionSort revDescRel ((skuKeys rows).map (mkProductRow rows rev prof)),
   { rows := rows, revenue := some rev, profit := some prof })

/-- One row of the monthly profitability table (lines 97-106): the month key,
its summed Profit and Revenue, and the running `Cumulative Profit`. -/
structure MonthRow where
  month : Int
  profit : ℚ
  revenue : ℚ
  cumProfit : ℚ
deriving DecidableEq, Repr, Inhabited

/-- Line 106: `cumsum` over the month rows, threading the running total. -/
def cumsumFrom (acc : ℚ) : List (Int × ℚ × ℚ) → List MonthRow
  | [] => []
  | (m, p, r) :: rest =>
      { month := m, profit := p, revenue := r, cumProfit := acc + p } :: cumsumFrom (acc + p) rest

/-- The month group keys of line 98 in ascending order (groupby sorts them;
line 103 re-sorts by the same key). -/
def monthKeys (rows : List Row) : List Int :=
  List.insertionSort (fun a b => a ≤ b) (firstUniq (rows.map (fun r => r.datePlaced.ym)))

/-- Per-month sum of a derived column `xs` over the lines whose `Date placed`
falls in month `m`. -/
def monthColSum (rows : List Row) (xs : List ℚ) (m : Int) : ℚ :=
  (((rows.zip xs).filter (fun p => p.1.datePlaced.ym == m)).map (fun p => p.2)).sum

/-- Lines 88-108: `analyse_profitability_over_time`.  It overwrites the shared
`Profit` column (line 90), flags first lines (line 93), adds the fee to
`Profit` (line 94), then adds the fee to the existing `Revenue` column
(line 95) — it never recomputes `Revenue`, so if the shared frame has no
`Revenue` column this read raises a `KeyError`, modelled as `Except.error`.
On success it groups by month, sums both columns, sorts ascending by month and
attaches the cumulative profit. -/
def analyse_profitability_over_time (s : DfState) :
    Except String (List MonthRow × DfState) :=
  let rows := s.rows
  let flags := isFirstItem rows
  let prof := addFeeWhere flags (rows.map lineProfit)
  match s.revenue with
  | none => .error "KeyError: Revenue"
  | some rev0 =>
      let rev := addFeeWhere flags rev0
      let table := cumsumFrom 0
        ((monthKeys rows).map (fun m => (m, monthColSum rows prof m, monthColSum rows rev m)))
      .ok (table, { rows := rows, revenue := some rev, profit := some prof })

/-- Sort relation of line 112 (`sort_values(["Email", "Date placed"])`,
lexicographic; pandas' multi-key sort is stable, as is `insertionSort`). -/
def affRel (a b : Row) : Prop :=
  strLtB a.email b.email = true ∨ (a.email = b.email ∧ Date.le a.datePlaced b.datePlaced)

instance : DecidableRel affRel := fun a b => by unfold affRel; infer_instance

/-- Line 112: the line table sorted by `(Email, Date placed)`. -/
def df_sorted (rows : List Row) : List Row := List.insertionSort affRel rows

/-- Line 115: `is_first_purchase = ~df_sorted["Email"].duplicated(keep="first")`
— true only at the single first-occurring line of each email in the sorted
order. -/
def aff_flags (rows : List Row) : List Bool :=
  firstFlags ((df_sorted rows).map (fun r => r.email))

/-- Line 118: the lines flagged as first purchases. -/
def first_purchases (rows : List Row) : List Row :=
  (((df_sorted rows).zip (aff_flags rows)).filter (fun p => p.2)).map (fun p => p.1)

/-- Line 121: the remaining (repeat) lines. -/
def repeat_purchases (rows : List Row) : List Row :=
  (((df_sorted rows).zip (aff_flags rows)).filter (fun p => !p.2)).map (fun p => p.1)

/-- `Series.value_counts()`: occurrence counts per distinct value, sorted by
count descending. -/
def value_counts (l : List String) : List (String × Nat) :=
  List.insertionSort (fun a b => b.2 ≤ a.2) ((firstUniq l).map (fun k => (k, l.count k)))

/-- One row of the purchase-affinity table (lines 132-138). -/
structure AffRow where
  sku : String
  firstPurchaseCount : ℚ
  repeatPurchaseCount : ℚ
  repeatToFirst : ℚ
deriving DecidableEq, Repr, Inhabited

/-- Build one merged affinity row from a SKU and its two counts (line 135's
ratio; rational division, with `x/0 = 0` standing in for the inf/NaN pandas
produces — no claim depends on the ratio). -/
def mkAff (s : String) (f r : Nat) : AffRow :=
  { sku := s, firstPurchaseCount := (f : ℚ), repeatPurchaseCount := (r : ℚ),
    repeatToFirst := (r : ℚ) / (f : ℚ) }

/-- Line 132: `pd.merge(first, rep, on="SKU", how="outer").fillna(0)` — one row
per left key (matching right count or 0), then the right-only keys with first
count 0. -/
def mergeOuterFill (fc rc : List (String × Nat)) : List AffRow :=
  fc.map (fun p => mkAff p.1 p.2 ((rc.lookup p.1).getD 0)) ++
    ((rc.filter (fun p => !((fc.map Prod.fst).contains p.1))).map (fun p => mkAff p.1 0 p.2))

/-- Sort relation of line 138 (`sort_values("First Purchase Count",
ascending=False)`). -/
def firstCountDescRel (a b : AffRow) : Prop := b.firstPurchaseCount ≤ a.firstPurchaseCount

instance : DecidableRel firstCountDescRel := fun a b => by
  unfold firstCountDescRel; infer_instance

/-- Lines 110-140: `analyse_first_and_repeat_purchases`.  Works on a sorted
copy of the line table (no shared-state mutation): flag the first line per
email, count SKU occurrences in the first and repeat subsets, outer-merge the
two count tables filling absents with 0, and sort by first-purchase count
descending. -/
def analyse_first_and_repeat_purchases (rows : List Row) : List AffRow :=
  List.insertionSort firstCountDescRel
    (mergeOuterFill (value_counts ((first_purchases rows).map (fun r => r.sku)))
      (value_counts ((repeat_purchases rows).map (fun r => r.sku))))

/-- The result tables `main` hands to the presentation layer. -/
structure PipelineOut where
  countData : PivotMatrix
  revenueData : PivotMatrix
  orderData : List OrderRow
  productTable : List ProductRow
  profitability : List MonthRow
  affinity : List AffRow
deriving DecidableEq, Repr

/-- Lines 147-152: the pipeline of `main` on one uploaded table — the four
analysers run in order on the one shared dataframe, each seeing the column
state the previous one left behind; an uncaught exception aborts the run. -/
def mainPipeline (rows : List Row) : Except String PipelineOut :=
  let a := analyse_data (load_data rows)
  let ps := analyse_product_sales a.state
  match analyse_profitability_over_time ps.2 with
  | .error e => .error e
  | .ok (tbl, s3) =>
      .ok { countData := a.countData
            revenueData := a.revenueData
            orderData := a.orderData
            productTable := ps.1
            profitability := tbl
            affinity := analyse_first_and_repeat_purchases s3.rows }

/-- Total monthly Revenue reported by the Monthly Profitability Aggregator
when the pipeline of `main` runs on `rows` (0 if the pipeline fails). -/
def pipelineMonthlyRevenueTotal (rows : List Row) : ℚ :=
  match mainPipeline rows with
  | .ok o => (o.profitability.map (fun m => m.revenue)).sum
  | .error _ => 0

/-! ### Untyped-cell model for the error behaviour of `analyse_data`

For the error-handling claim the table is modelled before any typing
assumption: a header row plus rows of dynamic cells.  A missing column
(pandas `KeyError` on `df[col]`) is a schema error; arithmetic on a
non-numeric cell (pandas raises a `TypeError` for such a column at the
multiplication of line 16/23 or, for the string-repetition corner of
Python, at the latest when line 27 adds the integer fee to the garbage it
produced) is a data error. -/

/-- A dynamic cell: a numeric value or anything else (strings, unparsed
dates, ...). -/
inductive Value
  | num (q : ℚ)
  | str (s : String)
deriving DecidableEq, Repr

/-- Whether a cell is numeric. -/
def Value.isNum : Value → Bool
  | .num _ => true
  | .str _ => false

/-- The two error classes of the Order Aggregator. -/
inductive DynErr
  | schemaError
  | dataError
deriving DecidableEq, Repr

/-- A raw uploaded table: the header and one list of cells per row. -/
structure RawTable where
  cols : List String
  cells : List (List Value)
deriving DecidableEq, Repr

/-- The cells of column `c`, read positionally through the header (a short
row yields the empty-string cell, which is non-numeric). -/
def RawTable.colVals (t : RawTable) (c : String) : List Value :=
  t.cells.map (fun row => ((t.cols.zip row).lookup c).getD (.str ""))

/-- `df[c]`: the column when the header contains `c`, otherwise the
`KeyError`, surfaced as a schema error. -/
def RawTable.getCol (t : RawTable) (c : String) : Except DynErr (List Value) :=
  if c ∈ t.cols then .ok (t.colVals c) else .error .schemaError

/-- Element-wise product of two columns: numeric cells multiply, any
non-numeric operand is a data error (the `TypeError` the program raises for
such a column, at this multiplication or at the fee addition downstream). -/
def zipMulQ : List Value → List Value → Except DynErr (List ℚ)
  | [], _ => .ok []
  | _ :: _, [] => .ok []
  | a :: as, b :: bs =>
    match a, b with
    | .num x, .num y =>
        match zipMulQ as bs with
        | .ok rest => .ok (x * y :: rest)
        | .error e => .error e
    | _, _ => .error .dataError

/-- One aggregated order of the untyped model (columns of line 24's frame,
after the fee and profit of lines 27-28). -/
structure OrderDyn where
  orderId : Value
  email : Value
  datePlaced : Value
  revenue : ℚ
  unitCost : ℚ
  profit : ℚ
deriving DecidableEq, Repr

/-- Lines 14-28 of `analyse_data` over a raw table, with the column reads in
source order: `QTY * Unit Price` (line 16), then the groupby's reads of
`Order ID`, `Email`, `Date placed`, and the `Unit Cost * QTY` aggregation
(lines 19-24), then fee and profit (lines 27-28).  Every error is surfaced as
`Except.error`; no partial table is returned.  The later lines of
`analyse_data` (sort, segmentation, pivots) read only columns this part
already materialised. -/
def analyse_data_dyn (t : RawTable) : Except DynErr (List OrderDyn) :=
  match t.getCol "QTY" with
  | .error e => .error e
  | .ok qty =>
    match t.getCol "Unit Price" with
    | .error e => .error e
    | .ok price =>
      match zipMulQ qty price with
      | .error e => .error e
      | .ok revenue =>
        match t.getCol "Order ID" with
        | .error e => .error e
        | .ok oid =>
          match t.getCol "Email" with
          | .error e => .error e
          | .ok email =>
            match t.getCol "Date placed" with
            | .error e => .error e
            | .ok date =>
              match t.getCol "Unit Cost" with
              | .error e => .error e
              | .ok cost =>
                match zipMulQ cost qty with
                | .error e => .error e
                | .ok costq =>
                  let recs := oid.zip (email.zip (date.zip (revenue.zip costq)))
                  .ok ((firstUniq oid).map (fun k =>
                    let g := recs.filter (fun r => r.1 == k)
                    let dflt : Value × Value × Value × ℚ × ℚ := (k, .str "", .str "", 0, 0)
                    { orderId := k
                      email := (g.headD dflt).2.1
                      datePlaced := (g.headD dflt).2.2.1
                      revenue := (g.map (fun r => r.2.2.2.1)).sum + flatShippingFee
                      unitCost := (g.map (fun r => r.2.2.2.2)).sum
                      profit := ((g.map (fun r => r.2.2.2.1)).sum + flatShippingFee)
                                  - (g.map (fun r => r.2.2.2.2)).sum }))

/-- The columns the Order Aggregator itself reads. -/
def requiredColsUsed : List String :=
  ["Order ID", "Email", "Date placed", "QTY", "Unit Price", "Unit Cost"]

/-- The full required-column list of the input contract (§6 of the spec),
including the two columns `analyse_data` never reads. -/
def requiredColsSpec : List String :=
  ["Order ID", "Email", "Date placed", "Date Completed", "SKU", "QTY",
   "Unit Price", "Unit Cost"]

/-- The three columns whose cells must be numeric. -/
def numericCols : List String := ["QTY", "Unit Price", "Unit Cost"]

/-- All present numeric columns of `t` hold only numeric cells. -/
def RawTable.numericOk (t : RawTable) : Prop :=
  ∀ c ∈ numericCols, c ∈ t.cols → ∀ v ∈ t.colVals c, v.isNum = true

instance : DecidablePred RawTable.numericOk := fun t => by
  unfold RawTable.numericOk
  infer_instance

/-! ### Order and grouping lemmas -/

theorem Date.le_refl (a : Date) : Date.le a a := by
  cases a; simp [Date.le]

theorem Date.le_trans {a b c : Date} (h1 : Date.le a b) (h2 : Date.le b c) : Date.le a c := by
  cases a; cases b; cases c; simp [Date.le] at *; omega

theorem Date.le_total (a b : Date) : Date.le a b ∨ Date.le b a := by
  cases a; cases b; simp [Date.le]; omega

theorem Date.lt_irrefl (a : Date) : ¬ Date.lt a a := by
  cases a; simp [Date.lt]

theorem Date.eq_of_le_of_not_lt {m d : Date} (h1 : Date.le m d) (h2 : ¬ Date.lt m d) : d = m := by
  cases m; cases d; simp [Date.le, Date.lt] at *; omega

theorem dateMin_le_left (a b : Date) : Date.le (dateMin a b) a := by
  unfold dateMin; split
  · exact Date.le_refl a
  · rcases Date.le_total a b with h | h
    · contradiction
    · exact h

theorem dateMin_le_right (a b : Date) : Date.le (dateMin a b) b := by
  unfold dateMin; split
  · assumption
  · exact Date.le_refl b

theorem dateMin_eq_or (a b : Date) : dateMin a b = a ∨ dateMin a b = b := by
  unfold dateMin; split <;> simp

theorem foldl_dateMin_mem : ∀ (l : List Date) (a : Date), l.foldl dateMin a ∈ a :: l := by
  intro l
  induction l with
  | nil => intro a; simp
  | cons d ds ih =>
      intro a
      have := ih (dateMin a d)
      rcases dateMin_eq_or a d with h | h <;>
        · simp only [List.foldl_cons]
          rcases List.mem_cons.mp this with h2 | h2 <;> simp [h2, h] at * <;> tauto

theorem foldl_dateMin_le : ∀ (l : List Date) (a : Date),
    Date.le (l.foldl dateMin a) a ∧ ∀ x ∈ l, Date.le (l.foldl dateMin a) x := by
  intro l
  induction l with
  | nil => intro a; exact ⟨Date.le_refl a, by simp⟩
  | cons d ds ih =>
      intro a
      rw [List.foldl_cons]
      obtain ⟨h1, h2⟩ := ih (dateMin a d)
      refine ⟨Date.le_trans h1 (dateMin_le_left a d), ?_⟩
      intro x hx
      rcases List.mem_cons.mp hx with h | h
      · rw [h]; exact Date.le_trans h1 (dateMin_le_right a d)
      · exact h2 x h

theorem minDateOf_mem {l : List Date} {m : Date} (h : minDateOf l = some m) : m ∈ l := by
  cases l with
  | nil => simp [minDateOf] at h
  | cons d ds =>
      simp only [minDateOf, Option.some.injEq] at h
      have := foldl_dateMin_mem ds d
      rw [h] at this
      exact this

theorem minDateOf_le {l : List Date} {m : Date} (h : minDateOf l = some m) :
    ∀ x ∈ l, Date.le m x := by
  cases l with
  | nil => simp
  | cons d ds =>
      simp only [minDateOf, Option.some.injEq] at h
      obtain ⟨h1, h2⟩ := foldl_dateMin_le ds d
      intro x hx
      rcases List.mem_cons.mp hx with hh | hh
      · exact hh ▸ (h ▸ h1)
      · exact h ▸ h2 x hh

theorem mem_firstUniqA {α : Type} [DecidableEq α] {k : α} :
    ∀ {l seen : List α}, k ∈ firstUniqA seen l ↔ k ∈ l ∧ k ∉ seen := by
  intro l
  induction l with
  | nil => intro seen; simp [firstUniqA]
  | cons a t ih =>
      intro seen
      by_cases h : a ∈ seen
      · rw [firstUniqA, if_pos h, ih]
        by_cases hk : k = a
        · subst hk; simp [h]
        · simp [List.mem_cons, hk]
      · rw [firstUniqA, if_neg h]
        by_cases hk : k = a
        · subst hk; simp [h]
        · simp [List.mem_cons, hk, ih]

theorem count_firstUniqA {α : Type} [DecidableEq α] (k : α) :
    ∀ (l seen : List α),
      (firstUniqA seen l).count k = if k ∈ l ∧ k ∉ seen then 1 else 0 := by
  intro l
  induction l with
  | nil => intro seen; simp [firstUniqA]
  | cons a t ih =>
      intro seen
      by_cases h : a ∈ seen
      · rw [firstUniqA, if_pos h, ih]
        by_cases hk : k = a
        · subst hk; simp [h]
        · simp [List.mem_cons, hk]
      · rw [firstUniqA, if_neg h]
        by_cases hk : k = a
        · subst hk
          rw [List.count_cons_self, ih]
          simp [h]
        · rw [List.count_cons_of_ne hk, ih]
          simp [List.mem_cons, hk]

theorem length_firstFlagsA {α : Type} [DecidableEq α] :
    ∀ (l seen : List α), (firstFlagsA seen l).length = l.length := by
  intro l
  induction l with
  | nil => intro seen; simp [firstFlagsA]
  | cons a t ih =>
      intro seen
      by_cases h : a ∈ seen <;> simp [firstFlagsA, h, ih]

theorem countTrue_firstFlagsA {α : Type} [DecidableEq α] :
    ∀ (l seen : List α), (firstFlagsA seen l).count true = (firstUniqA seen l).length := by
  intro l
  induction l with
  | nil => intro seen; simp [firstFlagsA, firstUniqA]
  | cons a t ih =>
      intro seen
      by_cases h : a ∈ seen <;>
        simp [firstFlagsA, firstUniqA, h, ih, List.count_cons]

theorem sum_addFeeWhere :
    ∀ (flags : List Bool) (xs : List ℚ), xs.length = flags.length →
      (addFeeWhere flags xs).sum = xs.sum + flatShippingFee * (flags.count true : ℚ) := by
  intro flags
  induction flags with
  | nil => intro xs h; simp at h; simp [h, addFeeWhere]
  | cons b bs ih =>
      intro xs h
      cases xs with
      | nil => simp at h
      | cons x xt =>
          simp only [List.length_cons, Nat.succ.injEq] at h
          have := ih xt h
          simp only [addFeeWhere] at this ⊢
          cases b <;> simp [List.count_cons, this] <;> ring

theorem map_fst_zipWith {α β γ : Type} (f : α → γ) :
    ∀ (l : List α) (x : List β), x.length = l.length →
      (l.zip x).map (fun p => f p.1) = l.map f := by
  intro l
  induction l with
  | nil => intro x h; simp
  | cons a t ih =>
      intro x h
      cases x with
      | nil => simp at h
      | cons y yt =>
          simp only [List.length_cons, Nat.succ.injEq] at h
          simp [ih yt h]

theorem map_snd_zipFull {α β : Type} :
    ∀ (l : List α) (x : List β), x.length = l.length →
      (l.zip x).map (fun p => p.2) = x := by
  intro l
  induction l with
  | nil => intro x h; simp at h; simp [h]
  | cons a t ih =>
      intro x h
      cases x with
      | nil => simp at h
      | cons y yt =>
          simp only [List.length_cons, Nat.succ.injEq] at h
          simp [ih yt h]

theorem sum_filter_key_split {α κ : Type} [DecidableEq κ] (key : α → κ) (f : α → ℚ)
    (c : κ) (seen : List κ) (hc : c ∉ seen) :
    ∀ t : List α,
      ((t.filter (fun x => key x == c)).map f).sum
          + ((t.filter (fun x => decide (key x ∉ c :: seen))).map f).sum
        = ((t.filter (fun x => decide (key x ∉ seen))).map f).sum := by
  intro t
  induction t with
  | nil => simp
  | cons b tb ih =>
      by_cases hb : key b = c
      · rw [@List.filter_cons_of_pos _ (fun x => key x == c) b tb (by simp [hb]),
          @List.filter_cons_of_neg _ (fun x => decide (key x ∉ c :: seen)) b tb (by simp [hb]),
          @List.filter_cons_of_pos _ (fun x => decide (key x ∉ seen)) b tb (by simp [hb, hc]),
          List.map_cons, List.sum_cons, List.map_cons, List.sum_cons]
        linarith [ih]
      · by_cases hbs : key b ∈ seen
        · rw [@List.filter_cons_of_neg _ (fun x => key x == c) b tb (by simp [hb]),
            @List.filter_cons_of_neg _ (fun x => decide (key x ∉ c :: seen)) b tb (by simp [hbs]),
            @List.filter_cons_of_neg _ (fun x => decide (key x ∉ seen)) b tb (by simp [hbs])]
          linarith [ih]
        · rw [@List.filter_cons_of_neg _ (fun x => key x == c) b tb (by simp [hb]),
            @List.filter_cons_of_pos _ (fun x => decide (key x ∉ c :: seen)) b tb (by simp [hb, hbs]),
            @List.filter_cons_of_pos _ (fun x => decide (key x ∉ seen)) b tb (by simp [hbs]),
            List.map_cons, List.sum_cons, List.map_cons, List.sum_cons]
          linarith [ih]

theorem sum_partition {α κ : Type} [DecidableEq κ] (key : α → κ) (f : α → ℚ) :
    ∀ (l : List α) (seen : List κ),
      ((firstUniqA seen (l.map key)).map
          (fun k => ((l.filter (fun a => key a == k)).map f).sum)).sum
        = ((l.filter (fun a => decide (key a ∉ seen))).map f).sum := by
  intro l
  induction l with
  | nil => intro seen; simp [firstUniqA]
  | cons a t ih =>
      intro seen
      have hset : ∀ (s2 : List κ), (hs : key a ∈ s2) →
          List.map (fun k => ((List.filter (fun x => key x == k) (a :: t)).map f).sum)
              (firstUniqA s2 (t.map key))
            = List.map (fun k => ((List.filter (fun x => key x == k) t).map f).sum)
              (firstUniqA s2 (t.map key)) := by
        intro s2 hs
        refine List.map_congr_left ?_
        intro k hk
        have hkk := (mem_firstUniqA.mp hk).2
        have heq : (key a == k) = false := by
          by_cases hak : key a = k
          · exact absurd (hak ▸ hs) hkk
          · simp [hak]
        rw [List.filter_cons, heq]
        simp
      by_cases h : key a ∈ seen
      · rw [List.map_cons, firstUniqA, if_pos h, hset seen h, ih]
        have heq : (decide (key a ∉ seen)) = false := by simp [h]
        rw [List.filter_cons, heq]
        simp
      · rw [List.map_cons, firstUniqA, if_neg h, List.map_cons, List.sum_cons,
          hset (key a :: seen) (by simp), ih]
        have h2 : (decide (key a ∉ seen)) = true := by simp [h]
        have h1 : (key a == key a) = true := by simp
        rw [List.filter_cons, h1, List.filter_cons, h2]
        simp only [if_pos, List.map_cons, List.sum_cons]
        rw [← sum_filter_key_split key f (key a) seen h t]
        ring

theorem filter_map_comm {α β : Type} (f : α → β) (p : β → Bool) (l : List α) :
    (l.map f).filter p = (l.filter (fun a => p (f a))).map f := by
  induction l with
  | nil => simp
  | cons a t ih =>
      by_cases h : p (f a) = true
      · simp only [List.map_cons, List.filter_cons_of_pos h,
          @List.filter_cons_of_pos _ (fun a => p (f a)) a t h, List.map_cons, ih]
      · simp only [List.map_cons, List.filter_cons_of_neg h,
          @List.filter_cons_of_neg _ (fun a => p (f a)) a t h, ih]

theorem minDateOf_of_ne_nil {l : List Date} (h : l ≠ []) : ∃ m, minDateOf l = some m := by
  cases l with
  | nil => exact absurd rfl h
  | cons d ds => exact ⟨ds.foldl dateMin d, rfl⟩

/-! ### Claim theorems -/

theorem countP_orderId (rows : List Row) (p : String → Bool) :
    (order_data rows).countP (fun o => p o.orderId)
      = (firstUniq (rows.map (fun r => r.orderId))).countP p := by
  rw [order_data, List.countP_map]
  have h1 : ((fun o => p o.orderId) ∘ applyCustomerType (order_sorted rows))
      = fun o : OrderRow => p o.orderId := rfl
  rw [h1, order_sorted, (List.perm_insertionSort dateLeRel (order_base rows)).countP_eq,
    order_base, List.countP_map]
  have h2 : ((fun o : OrderRow => p o.orderId) ∘ mkOrderRow rows) = p := rfl
  rw [h2, orderKeys,
    (List.perm_insertionSort (fun a b => strLeB a b = true)
      (firstUniq (rows.map (fun r => r.orderId)))).countP_eq]

theorem mem_order_data {rows : List Row} {o : OrderRow} (ho : o ∈ order_data rows) :
    ∃ k ∈ orderKeys rows, o = applyCustomerType (order_sorted rows) (mkOrderRow rows k) := by
  rw [order_data] at ho
  obtain ⟨o1, ho1, rfl⟩ := List.mem_map.mp ho
  have hb : o1 ∈ order_base rows :=
    ((List.perm_insertionSort dateLeRel (order_base rows)).mem_iff).mp ho1
  obtain ⟨k, hk, rfl⟩ := List.mem_map.mp hb
  exact ⟨k, hk, rfl⟩

theorem mem_orderKeys {rows : List Row} {k : String} :
    k ∈ orderKeys rows ↔ k ∈ rows.map (fun r => r.orderId) := by
  rw [orderKeys, (List.perm_insertionSort (fun a b => strLeB a b = true) _).mem_iff,
    firstUniq, mem_firstUniqA]
  simp

/-- A one-line table: one order `O1`, one line, `QTY 1`, `Unit Price 100`,
`Unit Cost 40`. -/
def exRow1 : Row := ⟨"O1", "a", ⟨1, 1⟩, "X1", 1, 100, 40⟩

/-- C1: refuted on the code.  In the pipeline order of `main`, the Monthly
Profitability Aggregator's total Revenue on a one-line, one-order table is
130 = 100 + 15 + 15: `analyse_product_sales` adds the fee to the shared
`Revenue` column and `analyse_profitability_over_time` adds it again without
recomputing the column, so the flat fee is counted twice per distinct
OrderID there — not the claimed `Σ QTY*UnitPrice + 15` per order (115,
"never 30"). -/
theorem C1_monthly_revenue_double_fee :
    pipelineMonthlyRevenueTotal [exRow1] = 130 ∧
    pipelineMonthlyRevenueTotal [exRow1] ≠
      (([exRow1] : List Row).map lineRevenue).sum +
        flatShippingFee * ((firstUniq (([exRow1] : List Row).map (fun r => r.orderId))).length : ℚ) := by
  constructor
  · decide
  · decide

/-- C10: confirmed.  `analyse_profitability_over_time` applied to the direct
output of `load_data` — a shared frame with no `Revenue` column — fails with
the `KeyError` of line 95 instead of returning a month table; under the
pipeline order of `main`, where `analyse_product_sales` has already
materialised the `Revenue` column on the shared frame, the step succeeds for
every input table. -/
theorem C10_requires_revenue_column :
    (∀ rows : List Row,
        analyse_profitability_over_time (load_data rows) = .error "KeyError: Revenue") ∧
    (∀ rows : List Row, (mainPipeline rows).isOk = true) := by
  constructor
  · intro rows; rfl
  · intro rows; rfl

/-- C2: confirmed.  For every order id present in the input table, the Order
table of `analyse_data` contains exactly one row for it, and that row carries
`TotalRevenue = Σ QTY*UnitPrice + 15` over the order's lines,
`TotalCost = Σ QTY*UnitCost`, and `Profit = TotalRevenue - TotalCost`. -/
theorem C2_order_aggregator_totals (s : DfState) (oid : String)
    (h : oid ∈ s.rows.map (fun r => r.orderId)) :
    (((analyse_data s).orderData.filter (fun o => o.orderId == oid)).length = 1) ∧
    ∀ o ∈ (analyse_data s).orderData, o.orderId = oid →
      o.revenue = ((linesOf s.rows oid).map (fun r => r.qty * r.unitPrice)).sum
          + flatShippingFee ∧
      o.unitCost = ((linesOf s.rows oid).map (fun r => r.qty * r.unitCost)).sum ∧
      o.profit = o.revenue - o.unitCost := by
  have hod : (analyse_data s).orderData = order_data s.rows := rfl
  constructor
  · have hcp : (order_data s.rows).countP (fun o => o.orderId == oid)
        = (firstUniq (s.rows.map (fun r => r.orderId))).countP (fun k => k == oid) :=
      countP_orderId s.rows (fun k => k == oid)
    rw [hod, ← List.countP_eq_length_filter, hcp]
    have hc : (firstUniq (s.rows.map (fun r => r.orderId))).countP (fun k => k == oid)
        = (firstUniq (s.rows.map (fun r => r.orderId))).count oid := rfl
    rw [hc, firstUniq, count_firstUniqA]
    simp [h]
  · intro o ho hoid
    rw [hod] at ho
    obtain ⟨k, _, rfl⟩ := mem_order_data ho
    have hk : k = oid := hoid
    subst hk
    refine ⟨rfl, ?_, rfl⟩
    show ((linesOf s.rows k).map (fun r => r.unitCost * r.qty)).sum = _
    rw [List.map_congr_left (fun r _ => mul_comm r.unitCost r.qty)]

/-- Witness for C2 at the one-line table. -/
theorem C2_order_aggregator_totals_witness :
    (((analyse_data (load_data [exRow1])).orderData.filter
        (fun o => o.orderId == "O1")).length = 1) ∧
    ∀ o ∈ (analyse_data (load_data [exRow1])).orderData, o.orderId = "O1" →
      o.revenue = ((linesOf [exRow1] "O1").map (fun r => r.qty * r.unitPrice)).sum
          + flatShippingFee ∧
      o.unitCost = ((linesOf [exRow1] "O1").map (fun r => r.qty * r.unitCost)).sum ∧
      o.profit = o.revenue - o.unitCost :=
  C2_order_aggregator_totals (load_data [exRow1]) "O1" (by decide)

/-- Two single-line orders of the same customer placed at the identical
timestamp. -/
def exTieA : Row := ⟨"O1", "a", ⟨1, 1⟩, "X1", 1, 10, 4⟩

/-- Second tied order of the same customer. -/
def exTieB : Row := ⟨"O2", "a", ⟨1, 1⟩, "X2", 1, 10, 4⟩

/-- C4 counterexample: when a customer's two orders tie on the minimum
`Date placed`, line 38's non-strict comparison labels both of them
First-time, so the claimed "exactly one First-time Order row per Email"
fails: this email has two. -/
theorem C4_counterexample_tied_dates :
    ¬ (((analyse_data (load_data [exTieA, exTieB])).orderData.filter
          (fun o => o.email == "a" && o.customerType == "First-time")).length = 1) ∧
    ((analyse_data (load_data [exTieA, exTieB])).orderData.filter
        (fun o => o.email == "a" && o.customerType == "First-time")).length = 2 :=
  ⟨by decide, by decide⟩

/-- C4 amended: for every Email with Order rows, the per-email minimum order
date `m` exists; an Order row of that email is labelled First-time exactly
when its `DatePlaced` equals `m` (so at least one row — and exactly one
whenever the minimum date is not tied — is First-time), and it is labelled
Repeat exactly when its `DatePlaced` is strictly later than `m`. -/
theorem C4_first_time_iff_min_date (s : DfState) (e : String)
    (h : e ∈ (analyse_data s).orderData.map (fun o => o.email)) :
    ∃ m : Date,
      minDateOf (((analyse_data s).orderData.filter (fun o => o.email == e)).map
          (fun o => o.datePlaced)) = some m ∧
      (∃ o ∈ (analyse_data s).orderData, o.email = e ∧ o.datePlaced = m ∧
        o.customerType = "First-time") ∧
      ∀ o ∈ (analyse_data s).orderData, o.email = e →
        (o.customerType = "First-time" ↔ o.datePlaced = m) ∧
        (o.customerType = "Repeat" ↔ Date.lt m o.datePlaced) := by
  have hod : (analyse_data s).orderData = order_data s.rows := rfl
  rw [hod] at h ⊢
  set S := order_sorted s.rows with hS
  have hdates :
      ((order_data s.rows).filter (fun o => o.email == e)).map (fun o => o.datePlaced)
        = (S.filter (fun o => o.email == e)).map (fun o => o.datePlaced) := by
    rw [order_data, filter_map_comm, List.map_map]
    rfl
  have hmails : (order_data s.rows).map (fun o => o.email) = S.map (fun o => o.email) := by
    rw [order_data, List.map_map]
    rfl
  rw [hmails] at h
  obtain ⟨o0, ho0, he0⟩ := List.mem_map.mp h
  have hne : (S.filter (fun o => o.email == e)).map (fun o => o.datePlaced) ≠ [] := by
    have : o0 ∈ S.filter (fun o => o.email == e) :=
      List.mem_filter.mpr ⟨ho0, by simp [he0]⟩
    intro hnil
    rw [List.map_eq_nil_iff] at hnil
    rw [hnil] at this
    exact absurd this (List.not_mem_nil o0)
  obtain ⟨m, hm⟩ := minDateOf_of_ne_nil hne
  have hfpd : first_purchase_date S e = m := by
    rw [first_purchase_date, hm]
    rfl
  have hle : ∀ o ∈ S, o.email = e → Date.le m o.datePlaced := by
    intro o ho hoe
    refine minDateOf_le hm o.datePlaced (List.mem_map.mpr ⟨o, ?_, rfl⟩)
    exact List.mem_filter.mpr ⟨ho, by simp [hoe]⟩
  refine ⟨m, by rw [hdates]; exact hm, ?_, ?_⟩
  · have hmem : m ∈ (S.filter (fun o => o.email == e)).map (fun o => o.datePlaced) :=
      minDateOf_mem hm
    obtain ⟨o1, ho1, hdo1⟩ := List.mem_map.mp hmem
    obtain ⟨ho1S, ho1e⟩ := List.mem_filter.mp ho1
    have ho1e2 : o1.email = e := by simpa using ho1e
    refine ⟨applyCustomerType S o1, ?_, ho1e2, hdo1, ?_⟩
    · rw [order_data]
      exact List.mem_map.mpr ⟨o1, ho1S, rfl⟩
    · show customer_type (first_purchase_date S o1.email) o1.datePlaced = "First-time"
      rw [ho1e2, hfpd, customer_type, if_neg (hdo1 ▸ Date.lt_irrefl m)]
  · intro o ho hoe
    rw [order_data] at ho
    obtain ⟨o1, ho1, rfl⟩ := List.mem_map.mp ho
    have hoe1 : o1.email = e := hoe
    have hct : (applyCustomerType S o1).customerType = customer_type m o1.datePlaced := by
      show customer_type (first_purchase_date S o1.email) o1.datePlaced = _
      rw [hoe1, hfpd]
    have hled : Date.le m o1.datePlaced := hle o1 ho1 hoe1
    have hdate : (applyCustomerType S o1).datePlaced = o1.datePlaced := rfl
    rw [hct, hdate, customer_type]
    by_cases hlt : Date.lt m o1.datePlaced
    · rw [if_pos hlt]
      constructor
      · constructor
        · intro hcontra; exact absurd hcontra (by decide)
        · intro heq
          exact absurd (heq ▸ hlt) (Date.lt_irrefl m)
      · simp [hlt]
    · rw [if_neg hlt]
      constructor
      · simp [Date.eq_of_le_of_not_lt hled hlt]
      · constructor
        · intro hcontra; exact absurd hcontra (by decide)
        · intro hcontra; exact absurd hcontra hlt

/-- Witness for the amended C4 at the spec's own two-order example. -/
theorem C4_first_time_iff_min_date_witness :
    ∃ m : Date,
      minDateOf (((analyse_data (load_data [exRow1])).orderData.filter
          (fun o => o.email == "a")).map (fun o => o.datePlaced)) = some m ∧
      (∃ o ∈ (analyse_data (load_data [exRow1])).orderData, o.email = "a" ∧
        o.datePlaced = m ∧ o.customerType = "First-time") ∧
      ∀ o ∈ (analyse_data (load_data [exRow1])).orderData, o.email = "a" →
        (o.customerType = "First-time" ↔ o.datePlaced = m) ∧
        (o.customerType = "Repeat" ↔ Date.lt m o.datePlaced) :=
  C4_first_time_iff_min_date (load_data [exRow1]) "a" (by decide)

/-- The month table `analyse_profitability_over_time` returns on `s` (empty
on the failing no-Revenue-column case). -/
def profitTableOf (s : DfState) : List MonthRow :=
  match analyse_profitability_over_time s with
  | .ok (t, _) => t
  | .error _ => []

/-- A single line whose order loses money: `QTY 1`, `Unit Price 0`,
`Unit Cost 100`, so its month's Profit is `-100 + 15 = -85 < 0`. -/
def exNeg : Row := ⟨"O1", "a", ⟨1, 1⟩, "X1", 1, 0, 100⟩

/-- C6 counterexample: on a table whose only (hence first) month has negative
Profit, the CumulativeProfit sequence `[-85]` is trivially non-decreasing
while not every month's Profit is non-negative, so the claimed equivalence
fails — non-decreasingness never constrains the first month. -/
theorem C6_counterexample_first_month :
    List.Chain' (fun a b : ℚ => a ≤ b)
      ((profitTableOf ⟨[exNeg], some ([exNeg].map lineRevenue), none⟩).map
        (fun m => m.cumProfit)) ∧
    ¬ (∀ p ∈ (profitTableOf ⟨[exNeg], some ([exNeg].map lineRevenue), none⟩).map
        (fun m => m.profit), 0 ≤ p) := by
  have htbl : profitTableOf ⟨[exNeg], some ([exNeg].map lineRevenue), none⟩
      = [⟨1, -85, 15, -85⟩] := by decide
  rw [htbl]
  constructor
  · simp
  · intro hall
    have := hall (-85) (by simp)
    norm_num at this

theorem chain_cumsumFrom : ∀ (l : List (Int × ℚ × ℚ)) (acc : ℚ),
    List.Chain' (fun a b : ℚ => a ≤ b) ((cumsumFrom acc l).map (fun m => m.cumProfit)) ↔
      ∀ p ∈ ((cumsumFrom acc l).map (fun m => m.profit)).tail, 0 ≤ p := by
  intro l
  induction l with
  | nil => intro acc; simp [cumsumFrom]
  | cons hd tl ih =>
      intro acc
      obtain ⟨m1, p1, r1⟩ := hd
      cases tl with
      | nil => simp [cumsumFrom]
      | cons hd2 tl2 =>
          obtain ⟨m2, p2, r2⟩ := hd2
          have hih := ih (acc + p1)
          simp only [cumsumFrom, List.map_cons, List.tail_cons, List.chain'_cons] at hih ⊢
          constructor
          · rintro ⟨hle, hch⟩ p hp
            rcases List.mem_cons.mp hp with rfl | hp2
            · linarith
            · exact (hih.mp hch) p hp2
          · intro hall
            refine ⟨by have := hall p2 (List.mem_cons_self p2 _); linarith, ?_⟩
            exact hih.mpr (fun p hp => hall p (List.mem_cons_of_mem _ hp))

/-- C6 amended: for every successful run of the Monthly Profitability
Aggregator, the CumulativeProfit column is non-decreasing in index order if
and only if every month after the first has non-negative Profit — the first
month's Profit is unconstrained (it only shifts the starting level), which is
the one weakening of the claimed equivalence the counterexample forces. -/
theorem C6_cumprofit_monotone_iff (s : DfState) (tbl : List MonthRow) (s2 : DfState)
    (h : analyse_profitability_over_time s = .ok (tbl, s2)) :
    List.Chain' (fun a b : ℚ => a ≤ b) (tbl.map (fun m => m.cumProfit)) ↔
      ∀ p ∈ (tbl.map (fun m => m.profit)).tail, 0 ≤ p := by
  rw [analyse_profitability_over_time] at h
  cases hrev : s.revenue with
  | none => rw [hrev] at h; exact absurd h (by simp)
  | some rev0 =>
      rw [hrev] at h
      simp only [Except.ok.injEq, Prod.mk.injEq] at h
      obtain ⟨htbl, _⟩ := h
      rw [← htbl]
      exact chain_cumsumFrom _ 0

/-- Witness for the amended C6 at the one-line table. -/
theorem C6_cumprofit_monotone_iff_witness :
    List.Chain' (fun a b : ℚ => a ≤ b)
        (([⟨1, 75, 115, 75⟩] : List MonthRow).map (fun m => m.cumProfit)) ↔
      ∀ p ∈ (([⟨1, 75, 115, 75⟩] : List MonthRow).map (fun m => m.profit)).tail, 0 ≤ p :=
  C6_cumprofit_monotone_iff ⟨[exRow1], some ([exRow1].map lineRevenue), none⟩
    [⟨1, 75, 115, 75⟩] ⟨[exRow1], some [115], some [75]⟩ (by rfl)

/-- The column headers of a pivot matrix. -/
def PivotMatrix.colKeys (M : PivotMatrix) : List String := M.cols.map Prod.fst

/-- The column of header `c` (first match; empty when absent). -/
def PivotMatrix.colOf (M : PivotMatrix) (c : String) : List ℚ :=
  ((M.cols.filter (fun p => p.1 == c)).headD (c, [])).2

/-- The cell of column `c` at the row of month `mo`. -/
def PivotMatrix.entry (M : PivotMatrix) (c : String) (mo : Int) : ℚ :=
  ((M.months.zip (M.colOf c)).lookup mo).getD 0

theorem filter_key_map_not_mem {β : Type} (g : String → β) (t : String) :
    ∀ (l : List String), t ∉ l →
      (l.map (fun k => (k, g k))).filter (fun p => p.1 == t) = [] := by
  intro l
  induction l with
  | nil => intro h; rfl
  | cons x xs ih =>
      intro h
      have hxt : x ≠ t := by
        simp only [List.mem_cons, not_or] at h
        exact Ne.symm h.1
      have hx : ¬ ((fun p : String × β => p.1 == t) (x, g x)) = true := by simp [hxt]
      rw [List.map_cons,
        @List.filter_cons_of_neg _ (fun p : String × β => p.1 == t) (x, g x) _ hx]
      exact ih (fun hh => h (List.mem_cons_of_mem x hh))

theorem filter_key_map_nodup {β : Type} (g : String → β) (t : String) :
    ∀ (l : List String), l.Nodup → t ∈ l →
      (l.map (fun k => (k, g k))).filter (fun p => p.1 == t) = [(t, g t)] := by
  intro l
  induction l with
  | nil => intro _ h; exact absurd h (List.not_mem_nil t)
  | cons x xs ih =>
      intro hnd ht
      rcases List.mem_cons.mp ht with rfl | hmem
      · have hx : ((fun p : String × β => p.1 == t) (t, g t)) = true := by simp
        rw [List.map_cons,
          @List.filter_cons_of_pos _ (fun p : String × β => p.1 == t) (t, g t) _ hx,
          filter_key_map_not_mem g t xs (List.Nodup.not_mem hnd)]
      · have hxt : x ≠ t := by
          rintro rfl
          exact (List.Nodup.not_mem hnd) hmem
        have hx : ¬ ((fun p : String × β => p.1 == t) (x, g x)) = true := by simp [hxt]
        rw [List.map_cons,
          @List.filter_cons_of_neg _ (fun p : String × β => p.1 == t) (x, g x) _ hx]
        exact ih (List.Nodup.of_cons hnd) hmem

theorem lookup_zip_map (g : Int → ℚ) :
    ∀ (months : List Int) (mo : Int), mo ∈ months →
      ((months.zip (months.map g)).lookup mo) = some (g mo) := by
  intro months
  induction months with
  | nil => intro mo h; exact absurd h (List.not_mem_nil mo)
  | cons x xs ih =>
      intro mo h
      by_cases hx : mo = x
      · subst hx
        simp [List.lookup]
      · have : mo ∈ xs := by
          rcases List.mem_cons.mp h with h1 | h1
          · exact absurd h1 hx
          · exact h1
        have hmx : (mo == x) = false := by simp [hx]
        simp only [List.map_cons, List.zip_cons_cons, List.lookup, hmx]
        exact ih mo this

theorem nodup_firstUniq {α : Type} [DecidableEq α] (l : List α) : (firstUniq l).Nodup := by
  rw [List.nodup_iff_count_le_one]
  intro a
  rw [firstUniq, count_firstUniqA]
  split <;> omega

theorem nodup_cohortTypes (od : List OrderRow) : (cohortTypes od).Nodup := by
  rw [cohortTypes]
  exact ((List.perm_insertionSort _ _).nodup_iff).mpr
    (nodup_firstUniq (od.map (fun o => o.customerType)))

theorem mem_cohortTypes {od : List OrderRow} {t : String} :
    t ∈ cohortTypes od ↔ t ∈ od.map (fun o => o.customerType) := by
  rw [cohortTypes, (List.perm_insertionSort _ _).mem_iff, firstUniq, mem_firstUniqA]
  simp

theorem ensure_cols_mem (M : PivotMatrix) (c : String)
    (hc : c ∈ (["First-time", "Repeat"] : List String)) :
    c ∈ (ensure_cols M).colKeys := by
  rw [ensure_cols, PivotMatrix.colKeys]
  simp only [List.map_append, List.mem_append]
  by_cases h : (M.cols.map Prod.fst).contains c = true
  · left
    simpa using h
  · right
    rw [List.map_map]
    have hfst : (Prod.fst ∘ fun c' : String => (c', M.months.map (fun _ => (0 : ℚ))))
        = fun c' => c' := rfl
    rw [hfst, List.map_id']
    have hfalse : ((M.cols.map Prod.fst).contains c) = false := by
      cases hcc : (M.cols.map Prod.fst).contains c
      · rfl
      · exact absurd hcc h
    refine List.mem_filter.mpr ⟨hc, ?_⟩
    show (!((M.cols.map Prod.fst).contains c)) = true
    rw [hfalse]
    rfl

theorem entry_ensure_pivot (od : List OrderRow) (agg : Int → String → ℚ)
    (t : String) (mo : Int)
    (ht : t ∈ (["First-time", "Repeat"] : List String))
    (hmo : mo ∈ cohortMonths od) :
    (ensure_cols
      { months := cohortMonths od
        cols := (cohortTypes od).map
          (fun v => (v, (cohortMonths od).map (fun m => agg m v))) }).entry t mo
      = if t ∈ cohortTypes od then agg mo t else 0 := by
  have hkeys : ((cohortTypes od).map
      (fun v => (v, (cohortMonths od).map (fun m => agg m v)))).map Prod.fst
      = cohortTypes od := by
    rw [List.map_map]
    exact List.map_id' _
  rw [PivotMatrix.entry, PivotMatrix.colOf, ensure_cols]
  simp only [List.filter_append, hkeys]
  by_cases htypes : t ∈ cohortTypes od
  · have hleft := filter_key_map_nodup
      (fun v => (cohortMonths od).map (fun m => agg m v)) t
      (cohortTypes od) (nodup_cohortTypes od) htypes
    have hcont : ((cohortTypes od).contains t) = true := by simpa using htypes
    have hnotmem : t ∉ (["First-time", "Repeat"] : List String).filter
        (fun c => !((cohortTypes od).contains c)) := by
      intro hmem
      have := (List.mem_filter.mp hmem).2
      rw [hcont] at this
      simp at this
    have hright := filter_key_map_not_mem
      (fun _ : String => (cohortMonths od).map (fun _ => (0 : ℚ))) t
      ((["First-time", "Repeat"] : List String).filter
        (fun c => !((cohortTypes od).contains c))) hnotmem
    rw [hleft, hright, if_pos htypes]
    simp only [List.append_nil, List.headD_cons]
    rw [lookup_zip_map (fun m => agg m t) (cohortMonths od) mo hmo]
    rfl
  · have hleft := filter_key_map_not_mem
      (fun v => (cohortMonths od).map (fun m => agg m v)) t (cohortTypes od) htypes
    have hcont : ((cohortTypes od).contains t) = false := by
      cases hcc : (cohortTypes od).contains t
      · rfl
      · exact absurd (show t ∈ cohortTypes od by simpa using hcc) htypes
    have hmem2 : t ∈ (["First-time", "Repeat"] : List String).filter
        (fun c => !((cohortTypes od).contains c)) := by
      refine List.mem_filter.mpr ⟨ht, ?_⟩
      show (!((cohortTypes od).contains t)) = true
      rw [hcont]
      rfl
    have hnodup2 : ((["First-time", "Repeat"] : List String).filter
        (fun c => !((cohortTypes od).contains c))).Nodup :=
      List.Nodup.filter _ (by decide)
    have hright := filter_key_map_nodup
      (fun _ : String => (cohortMonths od).map (fun _ => (0 : ℚ))) t
      ((["First-time", "Repeat"] : List String).filter
        (fun c => !((cohortTypes od).contains c))) hnodup2 hmem2
    rw [hleft, hright, if_neg htypes]
    simp only [List.nil_append, List.headD_cons]
    rw [lookup_zip_map (fun _ => (0 : ℚ)) (cohortMonths od) mo hmo]
    rfl

/-- C8: confirmed.  For every input table the Cohort Summarizer's Count and
Revenue matrices both contain a "First-time" and a "Repeat" column, and every
(month, category) combination with no matching Order row holds the value 0 —
both when the category column came from the pivot (`fill_value=0`) and when
lines 53-57 appended it wholesale. -/
theorem C8_cohort_matrices_complete (s : DfState) :
    ("First-time" ∈ (analyse_data s).countData.colKeys ∧
     "Repeat" ∈ (analyse_data s).countData.colKeys ∧
     "First-time" ∈ (analyse_data s).revenueData.colKeys ∧
     "Repeat" ∈ (analyse_data s).revenueData.colKeys) ∧
    ∀ mo ∈ (analyse_data s).countData.months,
      ∀ t ∈ (["First-time", "Repeat"] : List String),
        (¬ ∃ o ∈ (analyse_data s).orderData, monthYear o = mo ∧ o.customerType = t) →
        (analyse_data s).countData.entry t mo = 0 ∧
        (analyse_data s).revenueData.entry t mo = 0 := by
  have hcm : (analyse_data s).countData
      = ensure_cols (count_data_raw (order_data s.rows)) := rfl
  have hrm : (analyse_data s).revenueData
      = ensure_cols (revenue_data_raw (order_data s.rows)) := rfl
  refine ⟨⟨ensure_cols_mem _ _ (by decide), ensure_cols_mem _ _ (by decide),
    ensure_cols_mem _ _ (by decide), ensure_cols_mem _ _ (by decide)⟩, ?_⟩
  intro mo hmo t ht habs
  have hmo2 : mo ∈ cohortMonths (order_data s.rows) := hmo
  have hcell : cohortCell (order_data s.rows) mo t = [] := by
    rw [cohortCell, List.filter_eq_nil_iff]
    intro o ho hpred
    simp only [Bool.and_eq_true, beq_iff_eq] at hpred
    exact habs ⟨o, ho, hpred.1, hpred.2⟩
  constructor
  · rw [hcm, count_data_raw,
      entry_ensure_pivot (order_data s.rows)
        (fun m v => ((cohortCell (order_data s.rows) m v).length : ℚ)) t mo ht hmo2]
    split
    · rw [hcell]; rfl
    · rfl
  · rw [hrm, revenue_data_raw,
      entry_ensure_pivot (order_data s.rows)
        (fun m v => ((cohortCell (order_data s.rows) m v).map (fun o => o.revenue)).sum)
        t mo ht hmo2]
    split
    · rw [hcell]; rfl
    · rfl

/-- Witness for C8: on the one-line table only "First-time" occurs, and the
appended "Repeat" column holds 0 at the only month. -/
theorem C8_cohort_matrices_complete_witness :
    (analyse_data (load_data [exRow1])).countData.entry "Repeat" 1 = 0 ∧
    (analyse_data (load_data [exRow1])).revenueData.entry "Repeat" 1 = 0 :=
  (C8_cohort_matrices_complete (load_data [exRow1])).2 1 (by decide) "Repeat" (by decide)
    (by decide)

theorem length_addFeeWhere (flags : List Bool) (xs : List ℚ) :
    (addFeeWhere flags xs).length = min xs.length flags.length := by
  rw [addFeeWhere, List.length_map, List.length_zip]

theorem sum_map_insertionSort {α : Type} (r : α → α → Prop) [DecidableRel r]
    (l : List α) (f : α → ℚ) :
    ((List.insertionSort r l).map f).sum = (l.map f).sum :=
  ((List.perm_insertionSort r l).map f).sum_eq

theorem sum_map_add_const {κ : Type} (l : List κ) (A : κ → ℚ) (c : ℚ) :
    (l.map (fun k => A k + c)).sum = (l.map A).sum + c * (l.length : ℚ) := by
  induction l with
  | nil => simp
  | cons x xs ih =>
      simp only [List.map_cons, List.sum_cons, List.length_cons, ih]
      push_cast
      ring

theorem filter_nil_seen {α : Type} (kf : α → String) (l : List α) :
    l.filter (fun a => decide (kf a ∉ ([] : List String))) = l := by
  have hq : ∀ a ∈ l, (fun a => decide (kf a ∉ ([] : List String))) a = (fun _ => true) a := by
    intro a _
    simp
  rw [List.filter_congr hq, List.filter_true]

theorem product_revenue_total (rows : List Row) (rev prof : List ℚ)
    (hlen : rev.length = rows.length) :
    (((skuKeys rows).map (mkProductRow rows rev prof)).map (fun p => p.revenue)).sum
      = rev.sum := by
  rw [List.map_map, skuKeys, sum_map_insertionSort]
  have hkeyeq : (rows.zip rev).map (fun p : Row × ℚ => p.1.sku)
      = rows.map (fun r => r.sku) := map_fst_zipWith (fun r => r.sku) rows rev hlen
  have hsp := sum_partition (fun p : Row × ℚ => p.1.sku) (fun p => p.2) (rows.zip rev) []
  rw [hkeyeq, filter_nil_seen (fun p : Row × ℚ => p.1.sku) (rows.zip rev),
    map_snd_zipFull rows rev hlen] at hsp
  rw [firstUniq, ← hsp]
  rfl

theorem order_revenue_total (rows : List Row) :
    ((order_data rows).map (fun o => o.revenue)).sum
      = (rows.map lineRevenue).sum
          + flatShippingFee * ((firstUniq (rows.map (fun r => r.orderId))).length : ℚ) := by
  rw [order_data, List.map_map]
  have hcomp : ((fun o : OrderRow => o.revenue) ∘ applyCustomerType (order_sorted rows))
      = fun o : OrderRow => o.revenue := rfl
  rw [hcomp, order_sorted, sum_map_insertionSort, order_base, List.map_map,
    orderKeys, sum_map_insertionSort]
  have hfun : ((fun o : OrderRow => o.revenue) ∘ mkOrderRow rows)
      = fun k => ((linesOf rows k).map lineRevenue).sum + flatShippingFee := rfl
  rw [hfun, sum_map_add_const]
  have hlenkeys :
      ((firstUniq (rows.map (fun r => r.orderId))).map
        (fun k => ((linesOf rows k).map lineRevenue).sum)).sum
      = (rows.map lineRevenue).sum := by
    have hsp := sum_partition (fun r : Row => r.orderId) lineRevenue rows []
    rw [filter_nil_seen (fun r : Row => r.orderId) rows] at hsp
    rw [firstUniq, ← hsp]
    rfl
  rw [hlenkeys]

/-- C3: confirmed.  The total `Revenue` of the Product Performance
Aggregator's table equals the total `TotalRevenue` of the Order Aggregator's
table on the same rows: both equal `Σ QTY*UnitPrice` over all lines plus the
flat fee once per distinct Order ID. -/
theorem C3_product_order_revenue_agree (s : DfState) :
    ((analyse_product_sales s).1.map (fun p => p.revenue)).sum
      = ((analyse_data s).orderData.map (fun o => o.revenue)).sum := by
  have hflags : (isFirstItem s.rows).length = s.rows.length := by
    rw [isFirstItem, firstFlags, length_firstFlagsA, List.length_map]
  have hlenrev : (addFeeWhere (isFirstItem s.rows) (s.rows.map lineRevenue)).length
      = s.rows.length := by
    rw [length_addFeeWhere, List.length_map, hflags, Nat.min_self]
  have h1 : (analyse_product_sales s).1
      = List.insertionSort revDescRel ((skuKeys s.rows).map
          (mkProductRow s.rows (addFeeWhere (isFirstItem s.rows) (s.rows.map lineRevenue))
            (addFeeWhere (isFirstItem s.rows) (s.rows.map lineProfit)))) := rfl
  rw [h1, sum_map_insertionSort, product_revenue_total s.rows _ _ hlenrev,
    sum_addFeeWhere _ _ (by rw [List.length_map, hflags])]
  have hod : (analyse_data s).orderData = order_data s.rows := rfl
  rw [hod, order_revenue_total]
  have hcnt : (isFirstItem s.rows).count true
      = (firstUniq (s.rows.map (fun r => r.orderId))).length := by
    rw [isFirstItem, firstFlags, countTrue_firstFlagsA, firstUniq]
  rw [hcnt]

theorem charListLt_irrefl : ∀ l : List Char, charListLt l l = false := by
  intro l
  induction l with
  | nil => rfl
  | cons a as ih => simp [charListLt, lt_irrefl, ih]

theorem charListLt_trans : ∀ l1 l2 l3 : List Char,
    charListLt l1 l2 = true → charListLt l2 l3 = true → charListLt l1 l3 = true := by
  intro l1
  induction l1 with
  | nil =>
      intro l2 l3 h12 h23
      cases l2 with
      | nil => exact absurd h12 (by simp [charListLt])
      | cons b bs =>
          cases l3 with
          | nil => exact absurd h23 (by simp [charListLt])
          | cons c cs => simp [charListLt]
  | cons a as ih =>
      intro l2 l3 h12 h23
      cases l2 with
      | nil => exact absurd h12 (by simp [charListLt])
      | cons b bs =>
          cases l3 with
          | nil => exact absurd h23 (by simp [charListLt])
          | cons c cs =>
              by_cases hab : a < b
              · by_cases hbc : b < c
                · simp [charListLt, lt_trans hab hbc]
                · by_cases hcb : c < b
                  · exact absurd h23 (by simp [charListLt, hbc, hcb])
                  · have hbc2 : b = c := le_antisymm (not_lt.mp hcb) (not_lt.mp hbc)
                    subst hbc2
                    simp [charListLt, hab]
              · by_cases hba : b < a
                · exact absurd h12 (by simp [charListLt, hab, hba])
                · have hab2 : a = b := le_antisymm (not_lt.mp hba) (not_lt.mp hab)
                  subst hab2
                  simp only [charListLt, lt_irrefl, if_false] at h12
                  by_cases hac : a < c
                  · simp [charListLt, hac]
                  · by_cases hca : c < a
                    · exact absurd h23 (by simp [charListLt, hac, hca])
                    · have hac2 : a = c := le_antisymm (not_lt.mp hca) (not_lt.mp hac)
                      subst hac2
                      simp only [charListLt, lt_irrefl, if_false] at h23 ⊢
                      exact ih bs cs h12 h23

theorem charListLt_antisymm : ∀ l1 l2 : List Char,
    charListLt l1 l2 = false → charListLt l2 l1 = false → l1 = l2 := by
  intro l1
  induction l1 with
  | nil =>
      intro l2 h12 _
      cases l2 with
      | nil => rfl
      | cons b bs => exact absurd h12 (by simp [charListLt])
  | cons a as ih =>
      intro l2 h12 h21
      cases l2 with
      | nil => exact absurd h21 (by simp [charListLt])
      | cons b bs =>
          by_cases hab : a < b
          · exact absurd h12 (by simp [charListLt, hab])
          · by_cases hba : b < a
            · exact absurd h21 (by simp [charListLt, hba])
            · have hab2 : a = b := le_antisymm (not_lt.mp hba) (not_lt.mp hab)
              subst hab2
              simp only [charListLt, lt_irrefl, if_false] at h12 h21
              rw [ih bs h12 h21]

theorem strLtB_irrefl (e : String) : strLtB e e = false := by
  rw [strLtB]; exact charListLt_irrefl e.data

theorem string_eq_of_data_eq {a b : String} (h : a.data = b.data) : a = b := by
  cases a
  cases b
  exact congrArg String.mk h

instance : IsTotal Row affRel := by
  constructor
  intro a b
  by_cases he : a.email = b.email
  · rcases Date.le_total a.datePlaced b.datePlaced with h | h
    · exact Or.inl (Or.inr ⟨he, h⟩)
    · exact Or.inr (Or.inr ⟨he.symm, h⟩)
  · by_cases h1 : strLtB a.email b.email = true
    · exact Or.inl (Or.inl h1)
    · by_cases h2 : strLtB b.email a.email = true
      · exact Or.inr (Or.inl h2)
      · exfalso
        apply he
        apply string_eq_of_data_eq
        exact charListLt_antisymm _ _ (Bool.eq_false_iff.mpr h1) (Bool.eq_false_iff.mpr h2)

instance : IsTrans Row affRel := by
  constructor
  intro a b c hab hbc
  rcases hab with h1 | ⟨he1, hd1⟩
  · rcases hbc with h2 | ⟨he2, _⟩
    · exact Or.inl (charListLt_trans _ _ _ h1 h2)
    · exact Or.inl (he2 ▸ h1)
  · rcases hbc with h2 | ⟨he2, hd2⟩
    · exact Or.inl (he1 ▸ h2)
    · exact Or.inr ⟨he1.trans he2, Date.le_trans hd1 hd2⟩

theorem count_flagged_key {α κ : Type} [DecidableEq κ] (key : α → κ) (e : κ) :
    ∀ (l : List α) (seen : List κ),
      ((l.zip (firstFlagsA seen (l.map key))).filter
          (fun p => key p.1 == e && p.2)).length
        = if e ∈ l.map key ∧ e ∉ seen then 1 else 0 := by
  intro l
  induction l with
  | nil => intro seen; simp [firstFlagsA]
  | cons a t ih =>
      intro seen
      rw [List.map_cons, firstFlagsA]
      by_cases h : key a ∈ seen
      · rw [if_pos h, List.zip_cons_cons,
          @List.filter_cons_of_neg _ (fun p : α × Bool => key p.1 == e && p.2) (a, false) _
            (by simp), ih]
        by_cases hk : e = key a
        · rw [← hk] at h
          simp [h]
        · simp [List.mem_cons, hk, Ne.symm hk]
      · rw [if_neg h, List.zip_cons_cons]
        by_cases hk : e = key a
        · rw [@List.filter_cons_of_pos _ (fun p : α × Bool => key p.1 == e && p.2)
              (a, true) _ (by simp [hk]), List.length_cons, ih]
          rw [hk]
          simp [h]
        · rw [@List.filter_cons_of_neg _ (fun p : α × Bool => key p.1 == e && p.2)
              (a, true) _ (by simp [Ne.symm hk]), ih]
          simp [List.mem_cons, hk, Ne.symm hk]

theorem flagged_min :
    ∀ (l : List Row) (seen : List String), List.Pairwise affRel l →
      ∀ p ∈ l.zip (firstFlagsA seen (l.map (fun r => r.email))), p.2 = true →
        p.1.email ∉ seen ∧
        ∀ y ∈ l, y.email = p.1.email → Date.le p.1.datePlaced y.datePlaced := by
  intro l
  induction l with
  | nil => intro seen _ p hp; exact absurd hp (by simp)
  | cons a t ih =>
      intro seen hpw p hp hflag
      obtain ⟨ha, ht⟩ := List.pairwise_cons.mp hpw
      rw [List.map_cons, firstFlagsA] at hp
      by_cases h : a.email ∈ seen
      · rw [if_pos h, List.zip_cons_cons] at hp
        rcases List.mem_cons.mp hp with rfl | hp2
        · exact absurd hflag (by simp)
        · obtain ⟨hnot, hmin⟩ := ih seen ht p hp2 hflag
          refine ⟨hnot, ?_⟩
          intro y hy hye
          rcases List.mem_cons.mp hy with rfl | hy2
          · exact absurd (hye ▸ h) hnot
          · exact hmin y hy2 hye
      · rw [if_neg h, List.zip_cons_cons] at hp
        rcases List.mem_cons.mp hp with rfl | hp2
        · refine ⟨h, ?_⟩
          intro y hy hye
          rcases List.mem_cons.mp hy with rfl | hy2
          · exact Date.le_refl _
          · rcases ha y hy2 with hlt | ⟨_, hd⟩
            · rw [hye] at hlt
              rw [strLtB_irrefl] at hlt
              exact absurd hlt (by simp)
            · exact hd
        · obtain ⟨hnot, hmin⟩ := ih (a.email :: seen) ht p hp2 hflag
          have hne : p.1.email ≠ a.email := by
            intro hcontra
            exact hnot (hcontra ▸ List.mem_cons_self a.email seen)
          refine ⟨fun hc => hnot (List.mem_cons_of_mem _ hc), ?_⟩
          intro y hy hye
          rcases List.mem_cons.mp hy with rfl | hy2
          · exact absurd hye (Ne.symm hne)
          · exact hmin y hy2 hye

/-- One order with two lines of the same SKU placed by one customer. -/
def exTwoLines1 : Row := ⟨"O1", "a", ⟨1, 1⟩, "X1", 1, 10, 4⟩

/-- Second line of the same first order. -/
def exTwoLines2 : Row := ⟨"O1", "a", ⟨1, 1⟩, "X1", 2, 10, 4⟩

/-- C5 counterexample: for a customer whose chronologically first (and only)
order has two lines of SKU X1, the Purchase-Affinity Analyzer reports
`FirstPurchaseCount = 1` for X1, not the 2 the claim requires — line 115
flags only the single first line per Email, not every line of the first
order. -/
theorem C5_counterexample_multiline_first_order :
    ((analyse_first_and_repeat_purchases [exTwoLines1, exTwoLines2]).filter
        (fun a => a.sku == "X1")).map (fun a => a.firstPurchaseCount) = [1] ∧
    (([exTwoLines1, exTwoLines2] : List Row).filter
        (fun r => r.sku == "X1")).length = 2 :=
  ⟨by decide, by decide⟩

/-- C5 amended: the Purchase-Affinity Analyzer classifies as "first" exactly
one line per customer — the first line of that Email in the
`(Email, DatePlaced)`-sorted order — and that line's `DatePlaced` is minimal
among all of the customer's lines (so it belongs to a chronologically first
order); every other line of the first order is classified "repeat". -/
theorem C5_affinity_flags_single_line_per_email (rows : List Row) (e : String)
    (h : e ∈ rows.map (fun r => r.email)) :
    (((df_sorted rows).zip (aff_flags rows)).filter
        (fun p => p.1.email == e && p.2)).length = 1 ∧
    ∀ p ∈ (df_sorted rows).zip (aff_flags rows), p.2 = true → p.1.email = e →
      ∀ r ∈ rows, r.email = e → Date.le p.1.datePlaced r.datePlaced := by
  have hperm : List.Perm (df_sorted rows) rows := List.perm_insertionSort affRel rows
  have hmem : e ∈ (df_sorted rows).map (fun r => r.email) :=
    ((hperm.map (fun r => r.email)).mem_iff).mpr h
  constructor
  · have hc := count_flagged_key (fun r : Row => r.email) e (df_sorted rows) []
    rw [aff_flags, firstFlags]
    rw [hc, if_pos ⟨hmem, by simp⟩]
  · intro p hp hflag hpe r hr hre
    have hsorted : List.Pairwise affRel (df_sorted rows) :=
      List.sorted_insertionSort affRel rows
    rw [aff_flags, firstFlags] at hp
    obtain ⟨_, hmin⟩ := flagged_min (df_sorted rows) [] hsorted p hp hflag
    exact hmin r (hperm.symm.subset hr) (hre.trans hpe.symm)

/-- Witness for the amended C5 at the two-line first order. -/
theorem C5_affinity_flags_single_line_per_email_witness :
    (((df_sorted [exTwoLines1, exTwoLines2]).zip
        (aff_flags [exTwoLines1, exTwoLines2])).filter
        (fun p => p.1.email == "a" && p.2)).length = 1 :=
  (C5_affinity_flags_single_line_per_email [exTwoLines1, exTwoLines2] "a" (by decide)).1

theorem count_partition_flags {α : Type} (key : α → String) (e : String) :
    ∀ (l : List α) (flags : List Bool), flags.length = l.length →
      (((l.zip flags).filter (fun p => p.2)).map (fun p => key p.1)).count e
        + (((l.zip flags).filter (fun p => !p.2)).map (fun p => key p.1)).count e
        = (l.map key).count e := by
  intro l
  induction l with
  | nil => intro flags h; simp
  | cons a t ih =>
      intro flags h
      cases flags with
      | nil => simp at h
      | cons b bs =>
          simp only [List.length_cons, Nat.succ.injEq] at h
          rw [List.zip_cons_cons]
          cases b
          · rw [@List.filter_cons_of_neg _ (fun p : α × Bool => p.2) (a, false) _ (by simp),
              @List.filter_cons_of_pos _ (fun p : α × Bool => !p.2) (a, false) _ (by simp),
              List.map_cons, List.map_cons,
              show ((a, false) : α × Bool).1 = a from rfl,
              List.count_cons, List.count_cons]
            have := ih bs h
            omega
          · rw [@List.filter_cons_of_pos _ (fun p : α × Bool => p.2) (a, true) _ (by simp),
              @List.filter_cons_of_neg _ (fun p : α × Bool => !p.2) (a, true) _ (by simp),
              List.map_cons, List.map_cons,
              show ((a, true) : α × Bool).1 = a from rfl,
              List.count_cons, List.count_cons]
            have := ih bs h
            omega

theorem aff_flags_length (rows : List Row) :
    (aff_flags rows).length = (df_sorted rows).length := by
  rw [aff_flags, firstFlags, length_firstFlagsA, List.length_map]

theorem first_repeat_count_split (rows : List Row) (sk : String) :
    ((first_purchases rows).map (fun r => r.sku)).count sk
      + ((repeat_purchases rows).map (fun r => r.sku)).count sk
      = (rows.map (fun r => r.sku)).count sk := by
  have e1 : (first_purchases rows).map (fun r => r.sku)
      = (((df_sorted rows).zip (aff_flags rows)).filter (fun p => p.2)).map
          (fun p => p.1.sku) := by
    rw [first_purchases, List.map_map]
    rfl
  have e2 : (repeat_purchases rows).map (fun r => r.sku)
      = (((df_sorted rows).zip (aff_flags rows)).filter (fun p => !p.2)).map
          (fun p => p.1.sku) := by
    rw [repeat_purchases, List.map_map]
    rfl
  have h1 : ((((df_sorted rows).zip (aff_flags rows)).filter (fun p => p.2)).map
          (fun p => p.1.sku)).count sk
      + ((((df_sorted rows).zip (aff_flags rows)).filter (fun p => !p.2)).map
          (fun p => p.1.sku)).count sk
      = ((df_sorted rows).map (fun r => r.sku)).count sk :=
    count_partition_flags (fun r : Row => r.sku) sk (df_sorted rows)
      (aff_flags rows) (aff_flags_length rows)
  rw [e1, e2, h1]
  exact ((List.perm_insertionSort affRel rows).map (fun r => r.sku)).count_eq sk

theorem vc_keys_perm (L : List String) :
    List.Perm ((value_counts L).map Prod.fst) (firstUniq L) := by
  rw [value_counts]
  have h := (List.perm_insertionSort (fun a b : String × Nat => b.2 ≤ a.2)
    ((firstUniq L).map (fun k => (k, L.count k)))).map Prod.fst
  rw [List.map_map] at h
  have h2 : (Prod.fst ∘ fun k : String => (k, L.count k)) = fun k => k := rfl
  rw [h2, List.map_id'] at h
  exact h

theorem vc_keys_nodup (L : List String) : ((value_counts L).map Prod.fst).Nodup :=
  ((vc_keys_perm L).nodup_iff).mpr (nodup_firstUniq L)

theorem vc_mem_keys {L : List String} {sk : String} :
    sk ∈ (value_counts L).map Prod.fst ↔ sk ∈ L := by
  rw [(vc_keys_perm L).mem_iff, firstUniq, mem_firstUniqA]
  simp

theorem vc_mem_val {L : List String} {p : String × Nat} (hp : p ∈ value_counts L) :
    p.2 = L.count p.1 ∧ p.1 ∈ L := by
  rw [value_counts, (List.perm_insertionSort _ _).mem_iff] at hp
  obtain ⟨k, hk, rfl⟩ := List.mem_map.mp hp
  exact ⟨rfl, by rw [firstUniq, mem_firstUniqA] at hk; exact hk.1⟩

theorem vc_mem_of {L : List String} {sk : String} (h : sk ∈ L) :
    (sk, L.count sk) ∈ value_counts L := by
  rw [value_counts, (List.perm_insertionSort _ _).mem_iff]
  exact List.mem_map.mpr ⟨sk, by rw [firstUniq, mem_firstUniqA]; simp [h], rfl⟩

theorem lookup_eq_of_mem_nodup {β : Type} :
    ∀ (A : List (String × β)) (k : String) (v : β),
      (A.map Prod.fst).Nodup → (k, v) ∈ A → A.lookup k = some v := by
  intro A
  induction A with
  | nil => intro k v _ h; exact absurd h (List.not_mem_nil _)
  | cons p ps ih =>
      intro k v hnd hm
      obtain ⟨k1, v1⟩ := p
      rcases List.mem_cons.mp hm with heq | hmem
      · injection heq with h1 h2
        subst h1
        subst h2
        simp [List.lookup]
      · by_cases hk : k = k1
        · exfalso
          subst hk
          rw [List.map_cons] at hnd
          exact (List.Nodup.not_mem hnd)
            (List.mem_map.mpr ⟨(k, v), hmem, rfl⟩)
        · have hkk : (k == k1) = false := by simp [hk]
          simp only [List.lookup, hkk]
          exact ih k v (List.Nodup.of_cons (by rwa [List.map_cons] at hnd)) hmem

theorem lookup_eq_none_of_not_mem {β : Type} :
    ∀ (A : List (String × β)) (k : String),
      k ∉ A.map Prod.fst → A.lookup k = none := by
  intro A
  induction A with
  | nil => intro k _; rfl
  | cons p ps ih =>
      intro k h
      obtain ⟨k1, v1⟩ := p
      rw [List.map_cons, List.mem_cons, not_or] at h
      have hkk : (k == k1) = false := by simp [h.1]
      simp only [List.lookup, hkk]
      exact ih k h.2

theorem affinity_eq (rows : List Row) :
    analyse_first_and_repeat_purchases rows
      = List.insertionSort firstCountDescRel
          (mergeOuterFill (value_counts ((first_purchases rows).map (fun r => r.sku)))
            (value_counts ((repeat_purchases rows).map (fun r => r.sku)))) := rfl

theorem vc_countP_key (L : List String) (sk : String) :
    (value_counts L).countP (fun p => p.1 == sk) = if sk ∈ L then 1 else 0 := by
  have h1 : ((value_counts L).map Prod.fst).countP (fun k => k == sk)
      = (value_counts L).countP (fun p => p.1 == sk) := by
    rw [List.countP_map]
    rfl
  rw [← h1, (vc_keys_perm L).countP_eq]
  have h2 : (firstUniq L).countP (fun k => k == sk) = (firstUniq L).count sk := rfl
  rw [h2, firstUniq, count_firstUniqA]
  simp

theorem affinity_row_counts (rows : List Row) (a : AffRow)
    (ha : a ∈ analyse_first_and_repeat_purchases rows) :
    a.firstPurchaseCount
        = (((first_purchases rows).map (fun r => r.sku)).count a.sku : ℚ) ∧
    a.repeatPurchaseCount
        = (((repeat_purchases rows).map (fun r => r.sku)).count a.sku : ℚ) := by
  rw [affinity_eq, (List.perm_insertionSort _ _).mem_iff, mergeOuterFill] at ha
  rcases List.mem_append.mp ha with hL | hR
  · obtain ⟨p, hp, rfl⟩ := List.mem_map.mp hL
    obtain ⟨hp2, _⟩ := vc_mem_val hp
    simp only [mkAff]
    constructor
    · rw [hp2]
    · by_cases hr : p.1 ∈ (repeat_purchases rows).map (fun r => r.sku)
      · rw [lookup_eq_of_mem_nodup _ _ _ (vc_keys_nodup _) (vc_mem_of hr)]
        rfl
      · rw [lookup_eq_none_of_not_mem _ _ (fun hc => hr (vc_mem_keys.mp hc)),
          List.count_eq_zero.mpr hr]
        rfl
  · obtain ⟨q, hq, rfl⟩ := List.mem_map.mp hR
    obtain ⟨hqmem, hqpred⟩ := List.mem_filter.mp hq
    obtain ⟨hq2, _⟩ := vc_mem_val hqmem
    simp only [mkAff]
    constructor
    · have hnF : q.1 ∉ (first_purchases rows).map (fun r => r.sku) := by
        intro hc
        have h1 : q.1 ∈ (value_counts
            ((first_purchases rows).map (fun r => r.sku))).map Prod.fst :=
          vc_mem_keys.mpr hc
        have h2 : ((value_counts
            ((first_purchases rows).map (fun r => r.sku))).map Prod.fst).contains q.1
            = true := by simpa using h1
        rw [h2] at hqpred
        exact absurd hqpred (by simp)
      rw [List.count_eq_zero.mpr hnF]
    · rw [hq2]

theorem affinity_count_one (rows : List Row) (sk : String)
    (h : sk ∈ rows.map (fun r => r.sku)) :
    ((analyse_first_and_repeat_purchases rows).filter (fun a => a.sku == sk)).length
      = 1 := by
  rw [affinity_eq, ← List.countP_eq_length_filter,
    (List.perm_insertionSort _ _).countP_eq, mergeOuterFill, List.countP_append]
  have hleft : ((value_counts ((first_purchases rows).map (fun r => r.sku))).map
        (fun p => mkAff p.1 p.2
          (((value_counts ((repeat_purchases rows).map (fun r => r.sku))).lookup
            p.1).getD 0))).countP (fun a => a.sku == sk)
      = (value_counts ((first_purchases rows).map (fun r => r.sku))).countP
          (fun p => p.1 == sk) := by
    rw [List.countP_map]
    rfl
  have hrightP : (((value_counts ((repeat_purchases rows).map (fun r => r.sku))).filter
        (fun p => !((value_counts ((first_purchases rows).map
          (fun r => r.sku))).map Prod.fst).contains p.1)).map
          (fun p => mkAff p.1 0 p.2)).countP (fun a => a.sku == sk)
      = ((value_counts ((repeat_purchases rows).map (fun r => r.sku))).filter
          (fun p => !((value_counts ((first_purchases rows).map
            (fun r => r.sku))).map Prod.fst).contains p.1)).countP
          (fun p => p.1 == sk) := by
    rw [List.countP_map]
    rfl
  rw [hleft, hrightP, vc_countP_key]
  by_cases hF : sk ∈ (first_purchases rows).map (fun r => r.sku)
  · rw [if_pos hF]
    have hright0 : ((value_counts ((repeat_purchases rows).map (fun r => r.sku))).filter
        (fun p => !((value_counts ((first_purchases rows).map
          (fun r => r.sku))).map Prod.fst).contains p.1)).countP
        (fun p => p.1 == sk) = 0 := by
      rw [List.countP_eq_zero]
      intro q hq
      obtain ⟨_, hqpred⟩ := List.mem_filter.mp hq
      intro hqsk
      have hq1 : q.1 = sk := by simpa using hqsk
      have h1 : q.1 ∈ (value_counts
          ((first_purchases rows).map (fun r => r.sku))).map Prod.fst :=
        vc_mem_keys.mpr (hq1 ▸ hF)
      have h2 : ((value_counts
          ((first_purchases rows).map (fun r => r.sku))).map Prod.fst).contains q.1
          = true := by simpa using h1
      rw [h2] at hqpred
      exact absurd hqpred (by simp)
    rw [hright0]
  · rw [if_neg hF]
    have hR : sk ∈ (repeat_purchases rows).map (fun r => r.sku) := by
      have hsplit := first_repeat_count_split rows sk
      have hzero : ((first_purchases rows).map (fun r => r.sku)).count sk = 0 :=
        List.count_eq_zero.mpr hF
      have hpos : 0 < (rows.map (fun r => r.sku)).count sk :=
        List.count_pos_iff.mpr h
      rw [hzero, Nat.zero_add] at hsplit
      exact List.count_pos_iff.mp (hsplit ▸ hpos)
    have hcongr : ((value_counts ((repeat_purchases rows).map (fun r => r.sku))).filter
        (fun p => !((value_counts ((first_purchases rows).map
          (fun r => r.sku))).map Prod.fst).contains p.1)).countP
        (fun p => p.1 == sk)
        = (value_counts ((repeat_purchases rows).map (fun r => r.sku))).countP
            (fun p => p.1 == sk) := by
      rw [List.countP_filter]
      refine List.countP_congr ?_
      intro q _
      by_cases hq1 : q.1 = sk
      · have hcont : ((value_counts ((first_purchases rows).map
            (fun r => r.sku))).map Prod.fst).contains q.1 = false := by
          cases hcc : ((value_counts ((first_purchases rows).map
              (fun r => r.sku))).map Prod.fst).contains q.1
          · rfl
          · exfalso
            have : q.1 ∈ (value_counts ((first_purchases rows).map
                (fun r => r.sku))).map Prod.fst := by simpa using hcc
            exact hF (hq1 ▸ vc_mem_keys.mp this)
        rw [hcont]
        simp only [Bool.not_false, Bool.and_true]
      · have hqq : (q.1 == sk) = false := by simp [hq1]
        rw [hqq]
        simp only [Bool.false_and]
    rw [hcongr, vc_countP_key, if_pos hR]

/-- C7: confirmed.  For every SKU present in the input table, the
Purchase-Affinity output has exactly one row for it, and that row's
FirstPurchaseCount plus RepeatPurchaseCount equals the number of input lines
with that SKU (the first/repeat split partitions the lines and the outer
merge fills the missing side with 0). -/
theorem C7_affinity_counts_partition (rows : List Row) (sk : String)
    (h : sk ∈ rows.map (fun r => r.sku)) :
    ((analyse_first_and_repeat_purchases rows).filter
        (fun a => a.sku == sk)).length = 1 ∧
    ∀ a ∈ analyse_first_and_repeat_purchases rows, a.sku = sk →
      a.firstPurchaseCount + a.repeatPurchaseCount
        = ((rows.map (fun r => r.sku)).count sk : ℚ) := by
  refine ⟨affinity_count_one rows sk h, ?_⟩
  intro a ha hask
  obtain ⟨h1, h2⟩ := affinity_row_counts rows a ha
  rw [h1, h2, hask, ← Nat.cast_add, first_repeat_count_split rows sk]

/-- Witness for C7 at the two-line single-SKU table. -/
theorem C7_affinity_counts_partition_witness :
    ((analyse_first_and_repeat_purchases [exTwoLines1, exTwoLines2]).filter
        (fun a => a.sku == "X1")).length = 1 :=
  (C7_affinity_counts_partition [exTwoLines1, exTwoLines2] "X1" (by decide)).1

theorem getCol_pos {t : RawTable} {c : String} (h : c ∈ t.cols) :
    t.getCol c = .ok (t.colVals c) := by
  rw [RawTable.getCol, if_pos h]

theorem getCol_neg {t : RawTable} {c : String} (h : c ∉ t.cols) :
    t.getCol c = .error .schemaError := by
  rw [RawTable.getCol, if_neg h]

theorem length_colVals (t : RawTable) (c : String) :
    (t.colVals c).length = t.cells.length := by
  rw [RawTable.colVals, List.length_map]

theorem zipMulQ_ok : ∀ (a b : List Value),
    (∀ v ∈ a, v.isNum = true) → (∀ v ∈ b, v.isNum = true) →
    ∃ out, zipMulQ a b = .ok out := by
  intro a
  induction a with
  | nil => intro b _ _; exact ⟨[], rfl⟩
  | cons x xs ih =>
      intro b ha hb
      cases b with
      | nil => exact ⟨[], rfl⟩
      | cons y ys =>
          have hx := ha x (List.mem_cons_self x xs)
          have hy := hb y (List.mem_cons_self y ys)
          obtain ⟨out, hout⟩ := ih ys
            (fun v hv => ha v (List.mem_cons_of_mem x hv))
            (fun v hv => hb v (List.mem_cons_of_mem y hv))
          cases x with
          | str sx => simp [Value.isNum] at hx
          | num qx =>
              cases y with
              | str sy => simp [Value.isNum] at hy
              | num qy => exact ⟨qx * qy :: out, by rw [zipMulQ, hout]⟩

theorem zipMulQ_err : ∀ (a b : List Value), a.length = b.length →
    ((∃ v ∈ a, v.isNum = false) ∨ (∃ v ∈ b, v.isNum = false)) →
    zipMulQ a b = .error .dataError := by
  intro a
  induction a with
  | nil =>
      intro b hlen hbad
      rcases hbad with ⟨v, hv, _⟩ | ⟨v, hv, _⟩
      · exact absurd hv (List.not_mem_nil v)
      · cases b with
        | nil => exact absurd hv (List.not_mem_nil v)
        | cons y ys => simp at hlen
  | cons x xs ih =>
      intro b hlen hbad
      cases b with
      | nil => simp at hlen
      | cons y ys =>
          simp only [List.length_cons, Nat.succ.injEq] at hlen
          cases x with
          | str sx => rfl
          | num qx =>
              cases y with
              | str sy => rfl
              | num qy =>
                  have hbad2 : (∃ v ∈ xs, v.isNum = false) ∨ (∃ v ∈ ys, v.isNum = false) := by
                    rcases hbad with ⟨v, hv, hvf⟩ | ⟨v, hv, hvf⟩
                    · rcases List.mem_cons.mp hv with rfl | hv2
                      · simp [Value.isNum] at hvf
                      · exact Or.inl ⟨v, hv2, hvf⟩
                    · rcases List.mem_cons.mp hv with rfl | hv2
                      · simp [Value.isNum] at hvf
                      · exact Or.inr ⟨v, hv2, hvf⟩
                  rw [zipMulQ, ih ys hlen hbad2]

/-- A well-formed one-row table with every required column except `SKU`. -/
def tNoSKU : RawTable :=
  ⟨["Order ID", "Email", "Date placed", "Date Completed", "QTY", "Unit Price",
    "Unit Cost"],
   [[.str "O1", .str "a", .str "d1", .str "d2", .num 1, .num 100, .num 40]]⟩

/-- C9 counterexample: `SKU` is a required column of the input contract, yet
the Order Aggregator run on a table without it succeeds — it never reads
`SKU` — so "for every input table missing a required column, the Order
Aggregator fails with a SchemaError" is false as stated. -/
theorem C9_counterexample_missing_sku :
    "SKU" ∈ requiredColsSpec ∧ "SKU" ∉ tNoSKU.cols ∧
    (analyse_data_dyn tNoSKU).isOk = true :=
  ⟨by decide, by decide, by decide⟩

/-- C9 amended: the Order Aggregator fails with a SchemaError (`KeyError`)
for every table missing one of the six columns it reads — Order ID, Email,
Date placed, QTY, Unit Price, Unit Cost — provided its present numeric
columns are numeric, and fails with a DataError (`TypeError`) for every
table with all six columns whose QTY, Unit Price, or Unit Cost cells include
a non-numeric value; in both cases the error is surfaced as `Except.error`
and no partial output is produced.  Missing `SKU` or `Date Completed` does
not fault this aggregator (they are read elsewhere). -/
theorem C9_order_aggregator_errors :
    (∀ (t : RawTable) (c : String), c ∈ requiredColsUsed → c ∉ t.cols →
        t.numericOk → analyse_data_dyn t = .error .schemaError) ∧
    (∀ t : RawTable, (∀ c ∈ requiredColsUsed, c ∈ t.cols) →
        (∃ c ∈ numericCols, ∃ v ∈ t.colVals c, v.isNum = false) →
        analyse_data_dyn t = .error .dataError) := by
  constructor
  · intro t c hc hmiss hnum
    by_cases h1 : "QTY" ∈ t.cols
    · by_cases h2 : "Unit Price" ∈ t.cols
      · obtain ⟨rev, hrev⟩ := zipMulQ_ok (t.colVals "QTY") (t.colVals "Unit Price")
          (hnum "QTY" (by decide) h1) (hnum "Unit Price" (by decide) h2)
        by_cases h3 : "Order ID" ∈ t.cols
        · by_cases h4 : "Email" ∈ t.cols
          · by_cases h5 : "Date placed" ∈ t.cols
            · by_cases h6 : "Unit Cost" ∈ t.cols
              · exfalso
                simp only [requiredColsUsed, List.mem_cons, List.not_mem_nil,
                  or_false] at hc
                rcases hc with rfl | rfl | rfl | rfl | rfl | rfl <;> tauto
              · simp only [analyse_data_dyn, getCol_pos h1, getCol_pos h2, hrev,
                  getCol_pos h3, getCol_pos h4, getCol_pos h5, getCol_neg h6]
            · simp only [analyse_data_dyn, getCol_pos h1, getCol_pos h2, hrev,
                getCol_pos h3, getCol_pos h4, getCol_neg h5]
          · simp only [analyse_data_dyn, getCol_pos h1, getCol_pos h2, hrev,
              getCol_pos h3, getCol_neg h4]
        · simp only [analyse_data_dyn, getCol_pos h1, getCol_pos h2, hrev,
            getCol_neg h3]
      · simp only [analyse_data_dyn, getCol_pos h1, getCol_neg h2]
    · simp only [analyse_data_dyn, getCol_neg h1]
  · intro t hall hbad
    have h1 : "QTY" ∈ t.cols := hall "QTY" (by decide)
    have h2 : "Unit Price" ∈ t.cols := hall "Unit Price" (by decide)
    have h3 : "Order ID" ∈ t.cols := hall "Order ID" (by decide)
    have h4 : "Email" ∈ t.cols := hall "Email" (by decide)
    have h5 : "Date placed" ∈ t.cols := hall "Date placed" (by decide)
    have h6 : "Unit Cost" ∈ t.cols := hall "Unit Cost" (by decide)
    by_cases hclean : (∀ v ∈ t.colVals "QTY", v.isNum = true) ∧
        (∀ v ∈ t.colVals "Unit Price", v.isNum = true)
    · obtain ⟨rev, hrev⟩ := zipMulQ_ok _ _ hclean.1 hclean.2
      have hcost : ∃ v ∈ t.colVals "Unit Cost", v.isNum = false := by
        obtain ⟨c, hcmem, v, hv, hvf⟩ := hbad
        simp only [numericCols, List.mem_cons, List.not_mem_nil, or_false] at hcmem
        rcases hcmem with rfl | rfl | rfl
        · exact absurd hvf (by rw [hclean.1 v hv]; simp)
        · exact absurd hvf (by rw [hclean.2 v hv]; simp)
        · exact ⟨v, hv, hvf⟩
      have hzerr : zipMulQ (t.colVals "Unit Cost") (t.colVals "QTY")
          = .error .dataError :=
        zipMulQ_err _ _ (by rw [length_colVals, length_colVals]) (Or.inl hcost)
      simp only [analyse_data_dyn, getCol_pos h1, getCol_pos h2, hrev,
        getCol_pos h3, getCol_pos h4, getCol_pos h5, getCol_pos h6, hzerr]
    · have hbad1 : (∃ v ∈ t.colVals "QTY", v.isNum = false) ∨
          (∃ v ∈ t.colVals "Unit Price", v.isNum = false) := by
        rw [not_and_or] at hclean
        rcases hclean with h | h
        · left
          simp only [not_forall] at h
          obtain ⟨v, hv, hvf⟩ := h
          exact ⟨v, hv, by revert hvf; cases v.isNum <;> simp⟩
        · right
          simp only [not_forall] at h
          obtain ⟨v, hv, hvf⟩ := h
          exact ⟨v, hv, by revert hvf; cases v.isNum <;> simp⟩
      have hzerr : zipMulQ (t.colVals "QTY") (t.colVals "Unit Price")
          = .error .dataError :=
        zipMulQ_err _ _ (by rw [length_colVals, length_colVals]) hbad1
      simp only [analyse_data_dyn, getCol_pos h1, getCol_pos h2, hzerr]

/-- A table missing the `Email` column. -/
def tNoEmail : RawTable :=
  ⟨["Order ID", "Date placed", "QTY", "Unit Price", "Unit Cost"],
   [[.str "O1", .str "d1", .num 1, .num 100, .num 40]]⟩

/-- A table whose `QTY` cell is non-numeric. -/
def tBadQty : RawTable :=
  ⟨["Order ID", "Email", "Date placed", "QTY", "Unit Price", "Unit Cost"],
   [[.str "O1", .str "a", .str "d1", .str "one", .num 100, .num 40]]⟩

/-- Witness for the amended C9 at a missing-column table and a
non-numeric-QTY table. -/
theorem C9_order_aggregator_errors_witness :
    analyse_data_dyn tNoEmail = .error .schemaError ∧
    analyse_data_dyn tBadQty = .error .dataError :=
  ⟨C9_order_aggregator_errors.1 tNoEmail "Email" (by decide) (by decide) (by decide),
   C9_order_aggregator_errors.2 tBadQty (by decide) (by decide)⟩

end WSAU